import Mathlib

/-!
Verification of the sales-report pipeline of `src/app.py`.

The program ingests transaction records (one per CSV row, parsing itself out
of scope), derives a "Sub Category" grouping label from the
"Online Reference Name" and "Table No" fields, aggregates the five numeric
measures by ("Order Type", "Sub Category", "Main Category"), assembles a
report with per-sub-category subtotals, per-order-type totals, a blank
separator after the "Take-Away" section, run-length label collapsing on the
"Order Type"/"Sub Category" columns, and a grand-total row computed from the
rows whose "Sub Category" label is one of the three order-type total labels.
Cell styling for export is chosen by substring matching on the rendered
labels.

Numeric measures are modelled as exact rationals (pandas sums of the measure
columns; the floating-point tolerance stated by the spec is subsumed by exact
equality).  Strings are Lean strings; the Python string operations used by
the code (`lower`, `strip`, `in`, `startswith`, f-string concatenation) are
modelled on the underlying character lists.  Each emitted report row carries,
as embedding metadata, a tag recording which `result.append` site of
`build_final_table` produced it; the tag is never consulted by the embedded
code paths that the source derives from label text (grand-total row selection,
cell formatting), which are transcribed faithfully on the label strings.
-/

/-! ## Python string primitives -/

/-- `hasPref p l` : the list `p` is a prefix of `l` (Python `startswith` on
characters). -/
def hasPref : List Char → List Char → Bool
  | [], _ => true
  | _ :: _, [] => false
  | a :: p, b :: l => a = b && hasPref p l

/-- `hasSub p l` : the list `p` occurs contiguously inside `l`
(Python `in` for strings). -/
def hasSub (p : List Char) : List Char → Bool
  | [] => hasPref p []
  | l@(_ :: rest) => hasPref p l || hasSub p rest

/-- Python `str.lower` (ASCII case mapping, which is all the pipeline's
markers need). -/
def pyLower (s : String) : String := ⟨s.data.map Char.toLower⟩

/-- Strip leading and trailing whitespace from a character list. -/
def pyStripL (l : List Char) : List Char :=
  ((l.dropWhile Char.isWhitespace).reverse.dropWhile Char.isWhitespace).reverse

/-- Python `str.strip()`. -/
def pyStrip (s : String) : String := ⟨pyStripL s.data⟩

/-! ## Data model: records and measures -/

/-- The five numeric measure columns: After Discount, CGST, SGST,
Delivery Charge, Total Price. -/
structure Nums where
  afterDiscount : ℚ
  cgst : ℚ
  sgst : ℚ
  deliveryCharge : ℚ
  totalPrice : ℚ
deriving DecidableEq

/-- Componentwise sum of a list of measure tuples (pandas `sum` over the
five numeric columns). -/
def sumNums (l : List Nums) : Nums :=
  ⟨(l.map Nums.afterDiscount).sum, (l.map Nums.cgst).sum, (l.map Nums.sgst).sum,
   (l.map Nums.deliveryCharge).sum, (l.map Nums.totalPrice).sum⟩

/-- One input record after CSV parsing: the four text columns used by the
pipeline plus the five numeric measures. -/
structure Rec where
  onlineRef : String
  tableNo : String
  orderType : String
  mainCategory : String
  nums : Nums
deriving DecidableEq

/-! ## Field classification and the Sub Category key (app.py lines 52-63) -/

/-- Transform of the "Online Reference Name" column: keep the text unchanged
if its lower-casing contains "swiggy" or "zomato", else the empty string. -/
def classifyChannel (x : String) : String :=
  if hasSub "swiggy".data (pyLower x).data || hasSub "zomato".data (pyLower x).data
  then x else ""

/-- Transform of the "Table No" column: lower-case, then classify by prefix. -/
def classifyTableNo (t : String) : String :=
  if (pyLower t).startsWith "sw" then "Counter Sweet Sales"
  else if (pyLower t).startsWith "sr" then "Scrap Sales"
  else ""

/-- The derived "Sub Category" label: `f"{tab} {onl}".strip()` when the
transformed online-reference is non-empty (Python truthiness), else the
transformed table label. -/
def subCategory (tab onl : String) : String :=
  if onl = "" then tab else pyStrip (tab ++ " " ++ onl)

/-- Grouping key: (Order Type, Sub Category, Main Category). -/
structure Key where
  orderType : String
  subCat : String
  mainCat : String
deriving DecidableEq

/-- The grouping key derived from a record. -/
def recKey (r : Rec) : Key :=
  ⟨r.orderType, subCategory (classifyTableNo r.tableNo) (classifyChannel r.onlineRef), r.mainCategory⟩

/-! ## Grouping and sorting (app.py lines 66-77) -/

/-- Helper for `uniqFirst`: drop elements already seen. -/
def uniqFirstAux {α : Type} [DecidableEq α] (seen : List α) : List α → List α
  | [] => []
  | a :: rest =>
    if a ∈ seen then uniqFirstAux seen rest else a :: uniqFirstAux (a :: seen) rest

/-- Distinct elements of a list in order of first occurrence
(pandas `unique`). -/
def uniqFirst {α : Type} [DecidableEq α] (l : List α) : List α := uniqFirstAux [] l

/-- The fixed priority list for "Order Type" (`order_type_order`). -/
def orderTypeOrder : List String := ["Dine-In", "Take-Away", "Delivery"]

/-- Categorical rank of an order type: position in `orderTypeOrder`, with
values outside the list (pandas `NaN` categories) ranked last. -/
def otRank (s : String) : ℕ :=
  if s = "Dine-In" then 0 else if s = "Take-Away" then 1
  else if s = "Delivery" then 2 else 3

/-- Tie-break tag for unknown order types (pandas categorical `NaN`), which
all rank last; known order types are fully determined by their rank.  Using
the order-type string here is an approximation of how pandas arranges those
`NaN`-category rows among themselves (by the remaining sort keys with a
stable tie-break); no such row ever reaches the report, because
`build_final_table` only iterates the three known order types. -/
def otTag (s : String) : String := if otRank s = 3 then s else ""

/-- Sort tuple realising the pandas ordering of the grouped frame:
categorical Order Type first (unknown last, string-ordered among
themselves), then Sub Category, then Main Category. -/
def keyTuple (k : Key) : Lex (ℕ × Lex (String × Lex (String × String))) :=
  toLex (otRank k.orderType, toLex (otTag k.orderType, toLex (k.subCat, k.mainCat)))

/-- Strict lexicographic comparison of character lists by code point
(Python string `<`, and the order pandas sorts string columns by). -/
def listLt : List Char → List Char → Bool
  | [], [] => false
  | [], _ :: _ => true
  | _ :: _, [] => false
  | a :: as, b :: bs => if a < b then true else if b < a then false else listLt as bs

/-- Executable decision procedure for `keyLE` (structural recursion, so that
concrete reports evaluate inside the kernel). -/
def keyLEb (a b : Key) : Bool :=
  if otRank a.orderType < otRank b.orderType then true
  else if otRank b.orderType < otRank a.orderType then false
  else if listLt (otTag a.orderType).data (otTag b.orderType).data then true
  else if listLt (otTag b.orderType).data (otTag a.orderType).data then false
  else if listLt a.subCat.data b.subCat.data then true
  else if listLt b.subCat.data a.subCat.data then false
  else if listLt a.mainCat.data b.mainCat.data then true
  else if listLt b.mainCat.data a.mainCat.data then false
  else true

/-- The row ordering used by `grouped.sort_values` (proved equivalent to the
lexicographic order `keyTuple a ≤ keyTuple b` below). -/
def keyLE (a b : Key) : Prop := keyLEb a b = true

instance : DecidableRel keyLE := fun a b => instDecidableEqBool (keyLEb a b) true

/-- Sort a list of keys by the pandas ordering. -/
def sortKeys (ks : List Key) : List Key := List.insertionSort keyLE ks

/-- The five per-group sums (`groupby(...).agg('sum')`) for one key. -/
def aggNums (recs : List Rec) (k : Key) : Nums :=
  sumNums ((recs.filter (fun r => recKey r = k)).map Rec.nums)

/-- One aggregated row: key plus summed measures. -/
structure AggRow where
  key : Key
  nums : Nums
deriving DecidableEq

/-- The sorted key list of the grouped frame. -/
def groupKeys (recs : List Rec) : List Key :=
  sortKeys (uniqFirst (recs.map recKey))

/-- The grouped-and-sorted frame handed to `build_final_table`. -/
def grouped (recs : List Rec) : List AggRow :=
  (groupKeys recs).map (fun k => ⟨k, aggNums recs k⟩)

/-! ## Report rows (app.py lines 80-151) -/

/-- Which `result.append` site of `build_final_table` produced a row
(embedding metadata; the source keeps no such tag). -/
inductive RKind
  | leaf
  | subTotal
  | typeTotal
  | blankSep
  | grand
deriving DecidableEq

/-- One output row.  `nums = none` encodes the five empty-string numeric
cells of the blank separator row. -/
structure ReportRow where
  orderType : String
  subCat : String
  mainCat : String
  nums : Option Nums
  kind : RKind
deriving DecidableEq

/-- A leaf row (app.py lines 94-103): the order-type label is written only
on the first leaf of its order-type section. -/
def leafRowOf (ot : String) (written : Bool) (a : AggRow) : ReportRow :=
  ⟨if written then "" else ot, a.key.subCat, a.key.mainCat, some a.nums, .leaf⟩

/-- Leaf rows for one sub-category slice, threading the
`order_type_written` flag. -/
def leafRows (ot : String) (written : Bool) : List AggRow → List ReportRow
  | [] => []
  | a :: rest => leafRowOf ot written a :: leafRows ot true rest

/-- The sub-category subtotal row (app.py lines 107-117). -/
def subTotalRow (sc : String) (sdf : List AggRow) : ReportRow :=
  ⟨"", sc ++ " Total", "", some (sumNums (sdf.map AggRow.nums)), .subTotal⟩

/-- The order-type total row (app.py lines 120-130). -/
def typeTotalRow (ot : String) (odf : List AggRow) : ReportRow :=
  ⟨ot, pyStrip ot ++ " Total", "", some (sumNums (odf.map AggRow.nums)), .typeTotal⟩

/-- The blank separator appended after the Take-Away section
(app.py lines 133-143). -/
def blankRow : ReportRow := ⟨"", "", "", none, .blankSep⟩

/-- The inner loop of `build_final_table` over the distinct sub-categories
of one order type. -/
def subCatBlocks (ot : String) (written : Bool) (odf : List AggRow) :
    List String → List ReportRow
  | [] => []
  | sc :: rest =>
    let sdf := odf.filter (fun a => a.key.subCat = sc)
    (leafRows ot written sdf ++ [subTotalRow sc sdf])
      ++ subCatBlocks ot (written || !sdf.isEmpty) odf rest

/-- One order-type section of the report (empty if the order type is absent
from the grouped data, mirroring the `continue`). -/
def typeBlock (g : List AggRow) (ot : String) : List ReportRow :=
  let odf := g.filter (fun a => a.key.orderType = ot)
  if odf.isEmpty then []
  else
    subCatBlocks ot false odf (uniqFirst (odf.map (fun a => a.key.subCat)))
      ++ [typeTotalRow ot odf]
      ++ (if ot = "Take-Away" then [blankRow] else [])

/-- The `result` list of `build_final_table` before label collapsing. -/
def rawTable (g : List AggRow) : List ReportRow :=
  (orderTypeOrder.map (typeBlock g)).flatten

/-! ## Label collapsing (app.py lines 147-149)

`final_df[col] = final_df[col].where(final_df[col] != final_df[col].shift(), '')`
blanks a cell exactly when it equals the previous row's original value in the
same column; the first row is never blanked (`shift` yields NaN there). -/

/-- Collapsing of the "Order Type" column after the first row; `p` is the
previous row's original value. -/
def collapseOTAux (p : String) : List ReportRow → List ReportRow
  | [] => []
  | r :: rs =>
    (if r.orderType = p then { r with orderType := "" } else r)
      :: collapseOTAux r.orderType rs

/-- Collapsing pass over the "Order Type" column. -/
def collapseOT : List ReportRow → List ReportRow
  | [] => []
  | r :: rs => r :: collapseOTAux r.orderType rs

/-- Collapsing of the "Sub Category" column after the first row. -/
def collapseSCAux (p : String) : List ReportRow → List ReportRow
  | [] => []
  | r :: rs =>
    (if r.subCat = p then { r with subCat := "" } else r)
      :: collapseSCAux r.subCat rs

/-- Collapsing pass over the "Sub Category" column. -/
def collapseSC : List ReportRow → List ReportRow
  | [] => []
  | r :: rs => r :: collapseSCAux r.subCat rs

/-- The full collapsing pass (the code loops over the two columns in this
order; the "Main Category" column is untouched). -/
def collapse (l : List ReportRow) : List ReportRow := collapseSC (collapseOT l)

/-- `build_final_table` on a run that returns: assemble the sections and
collapse repeated labels.  When `rawTable g` is empty — no aggregated row
has a recognised Order Type — the source function does not return at all:
`pd.DataFrame([])` has no columns and the collapse loop raises a KeyError at
`final_df['Order Type']` (line 149); that abort is modelled by
`runPipeline` below, so this function's value is only the program's output
when the table is non-empty. -/
def buildFinalTable (g : List AggRow) : List ReportRow :=
  collapse (rawTable g)

/-! ## Grand total (app.py lines 156-171) -/

/-- `totals_to_include`: the Sub Category labels whose rows feed the grand
total. -/
def totalsToInclude : List String := ["Delivery Total", "Dine-In Total", "Take-Away Total"]

/-- The grand-total row: sums over exactly the rows of the collapsed table
whose "Sub Category" cell is one of the three order-type total labels. -/
def grandTotal (final : List ReportRow) : ReportRow :=
  ⟨"Grand Total", "", "",
   some (sumNums ((final.filter (fun r => r.subCat ∈ totalsToInclude)).filterMap ReportRow.nums)),
   .grand⟩

/-- The full report: collapsed table plus the appended grand-total row. -/
def report (recs : List Rec) : List ReportRow :=
  let final := buildFinalTable (grouped recs)
  final ++ [grandTotal final]

/-! ## The raw numeric-cell layer (app.py lines 41, 66-72)

`pd.read_csv` parses each measure cell to a float, to NaN (when the cell is
empty/absent or one of the default NA markers such as "N/A"), or leaves it
as text, in which case the whole measure column gets object dtype.  The
groupby `sum` treats NaN as 0; but an object-dtype measure column is dropped
by `select_dtypes(include='number')` inside `build_final_table`, whose
`subtotal['After Discount']` lookup then raises, aborting the run (the
Streamlit app catches the exception and shows an error instead of a report).
A second abort path is independent of the measure cells: if no record has a
recognised Order Type (in particular on empty input), `result` stays empty,
`pd.DataFrame([])` is column-less, and the collapse loop's
`final_df['Order Type']` raises KeyError at line 149; when the table is
non-empty and a measure column is non-numeric, the subtotal lookup inside
the loop fires first. -/

/-- One raw measure cell as `read_csv` delivers it. -/
inductive RawCell
  | missing
  | num (q : ℚ)
  | str (s : String)
deriving DecidableEq

/-- The `read_csv` default NA markers (strings parsed as NaN). -/
def pandasNA : List String :=
  ["", "#N/A", "#N/A N/A", "#NA", "-1.#IND", "-1.#QNAN", "-NaN", "-nan",
   "1.#IND", "1.#QNAN", "<NA>", "N/A", "NA", "NULL", "NaN", "None",
   "n/a", "nan", "null"]

/-- Numeric view of a raw cell: `some none` is NaN (summed as 0),
`some (some q)` a number, `none` unparseable text (object dtype). -/
def cellToNum : RawCell → Option (Option ℚ)
  | .missing => some none
  | .num q => some (some q)
  | .str s => if s ∈ pandasNA then some none else none

/-- The value a clean cell contributes to the sums (NaN counts as 0). -/
def cellVal (c : RawCell) : ℚ :=
  match cellToNum c with
  | some (some q) => q
  | _ => 0

/-- A record as read from the CSV: text columns plus five raw measure
cells. -/
structure RawRec where
  onlineRef : String
  tableNo : String
  orderType : String
  mainCategory : String
  afterDiscount : RawCell
  cgst : RawCell
  sgst : RawCell
  deliveryCharge : RawCell
  totalPrice : RawCell
deriving DecidableEq

/-- All five measure cells of a record are numeric or NaN. -/
def cleanRec (r : RawRec) : Bool :=
  (cellToNum r.afterDiscount).isSome && (cellToNum r.cgst).isSome &&
  (cellToNum r.sgst).isSome && (cellToNum r.deliveryCharge).isSome &&
  (cellToNum r.totalPrice).isSome

/-- Numeric view of a record, substituting 0 for NaN cells. -/
def toRec (r : RawRec) : Rec :=
  ⟨r.onlineRef, r.tableNo, r.orderType, r.mainCategory,
   ⟨cellVal r.afterDiscount, cellVal r.cgst, cellVal r.sgst,
    cellVal r.deliveryCharge, cellVal r.totalPrice⟩⟩

/-- The observable pipeline on raw records.  If the assembled table is
empty — no record has a recognised Order Type, in particular on empty
input — the run aborts with the KeyError of the collapse loop (line 149);
otherwise, if some measure column is non-numeric (object dtype) the first
subtotal lookup aborts the run; otherwise the report is produced with NaN
summed as 0. -/
def runPipeline (rs : List RawRec) : Except String (List ReportRow) :=
  if (rawTable (grouped (rs.map toRec))).isEmpty then .error "KeyError: Order Type"
  else if rs.all cleanRec then .ok (report (rs.map toRec))
  else .error "non-numeric measure column"

/-! ## Cell formatting for export (app.py lines 219-229)

The format of a data row is chosen by substring matching on the rendered
labels: `'Grand Total' in str(order_type)` selects the grand-total format,
else `'Total' in str(sub_category)` selects the totals format, else the
normal format. -/

/-- The visual style categories defined by the export code. -/
inductive Style
  | total
  | grandStyle
  | normal
deriving DecidableEq

/-- Format selection for one data row, as the export loop computes it. -/
def cellFormat (r : ReportRow) : Style :=
  if hasSub "Grand Total".data r.orderType.data then .grandStyle
  else if hasSub "Total".data r.subCat.data then .total
  else .normal

/-! ## Predicates used by the verification -/

/-- The shape every derived Sub Category label has: empty, one of the two
table-classification labels, or text whose lower-casing contains "swiggy"
or "zomato". -/
def GoodSub (s : String) : Prop :=
  s = "" ∨ s = "Counter Sweet Sales" ∨ s = "Scrap Sales" ∨
    hasSub "swiggy".data (pyLower s).data = true ∨
    hasSub "zomato".data (pyLower s).data = true

instance : DecidablePred GoodSub := fun s => by
  unfold GoodSub
  infer_instance

/-- Shape invariant satisfied by every row `build_final_table` emits, by
emission site. -/
def RowOK (r : ReportRow) : Prop :=
  match r.kind with
  | .leaf => GoodSub r.subCat ∧ (r.orderType ∈ orderTypeOrder ∨ r.orderType = "") ∧
      r.nums.isSome = true
  | .subTotal => (∃ sc, GoodSub sc ∧ r.subCat = sc ++ " Total") ∧ r.orderType = "" ∧
      r.nums.isSome = true
  | .typeTotal => r.orderType ∈ orderTypeOrder ∧ r.subCat = r.orderType ++ " Total" ∧
      r.nums.isSome = true
  | .blankSep => r = blankRow
  | .grand => r.orderType = "Grand Total" ∧ r.nums.isSome = true

/-- Adjacency invariant of the assembled table: a subtotal or type-total row
never repeats its predecessor's Sub Category cell, a type-total row never
repeats its predecessor's Order Type cell, and a blank separator only
follows the Take-Away type-total row. -/
def AdjOK (a b : ReportRow) : Prop :=
  ((b.kind = RKind.subTotal ∨ b.kind = RKind.typeTotal) → a.subCat ≠ b.subCat) ∧
  (b.kind = RKind.typeTotal → a.orderType ≠ b.orderType) ∧
  (b.kind = RKind.blankSep → a.kind = RKind.typeTotal ∧ a.orderType = "Take-Away")

/-- Relation between a row and its image under the collapsing pass. -/
def CollapsedTo (r r' : ReportRow) : Prop :=
  r'.kind = r.kind ∧ r'.nums = r.nums ∧ r'.mainCat = r.mainCat ∧
  (r'.orderType = r.orderType ∨ r'.orderType = "") ∧
  (r'.subCat = r.subCat ∨ r'.subCat = "") ∧
  ((r.kind = RKind.subTotal ∨ r.kind = RKind.typeTotal) → r'.subCat = r.subCat) ∧
  (r.kind = RKind.typeTotal → r'.orderType = r.orderType)

/-- Relation between a row and its image under the Order Type collapsing
pass. -/
def COT (r r' : ReportRow) : Prop :=
  (r' = r ∨ r' = { r with orderType := "" }) ∧ (r.kind = RKind.typeTotal → r' = r)

/-- Relation between a row and its image under the Sub Category collapsing
pass. -/
def CSC (r r' : ReportRow) : Prop :=
  (r' = r ∨ r' = { r with subCat := "" }) ∧
  ((r.kind = RKind.subTotal ∨ r.kind = RKind.typeTotal) → r' = r)

/-- A row whose eight cells are all the empty string (the shape of the
blank separator). -/
def isBlank (r : ReportRow) : Prop :=
  r.orderType = "" ∧ r.subCat = "" ∧ r.mainCat = "" ∧ r.nums = none

instance : DecidablePred isBlank := fun r => by
  unfold isBlank
  infer_instance

/-- The label pair of a leaf row, in grouping order. -/
def labelPair (r : ReportRow) : String × String := (r.subCat, r.mainCat)

/-- Lexicographic order on (Sub Category, Main Category) label pairs. -/
def pairLE (p q : String × String) : Prop :=
  p.1 < q.1 ∨ (p.1 = q.1 ∧ p.2 ≤ q.2)

/-- Content projection of a report row (everything except the Order Type
cell and the kind tag). -/
def rowTriple (r : ReportRow) : String × String × Option Nums :=
  (r.subCat, r.mainCat, r.nums)

/-- Content projection of an aggregated row as a leaf row would carry it. -/
def aggTriple (a : AggRow) : String × String × Option Nums :=
  (a.key.subCat, a.key.mainCat, some a.nums)

/-- Concrete rows used by closed witness statements. -/
def wRowA : ReportRow := ⟨"A", "S", "M", none, .leaf⟩

def wRowB : ReportRow := ⟨"A", "T", "N", none, .leaf⟩

/-- A raw record whose "After Discount" cell is text that is not one of the
pandas NA markers. -/
def badNumRec : RawRec := ⟨"", "", "Dine-In", "Food", .str "abc", .num 1, .num 1, .num 1, .num 1⟩

/-- A raw record whose "After Discount" cell is the literal "N/A". -/
def naRec : RawRec := ⟨"", "", "Dine-In", "Food", .str "N/A", .num 2, .num 3, .num 4, .num 10⟩

/-- A clean raw record whose "Order Type" is outside the recognised list, so
a run on it alone assembles an empty table and aborts. -/
def otherRec : RawRec := ⟨"", "", "Other", "Food", .num 1, .num 1, .num 1, .num 1, .num 1⟩

/-- Records exhibiting the substring-based style selection: the first one's
online-reference text legitimately contains the word "Total". -/
def c4recs : List Rec :=
  [⟨"zomato Total", "", "Dine-In", "Food", ⟨1, 0, 0, 0, 0⟩⟩,
   ⟨"", "", "Dine-In", "Snacks", ⟨2, 0, 0, 0, 0⟩⟩]

/-- Two distinct records used by permutation witnesses. -/
def w8a : Rec := ⟨"", "sw1", "Dine-In", "Food", ⟨5, 1, 1, 0, 7⟩⟩

def w8b : Rec := ⟨"Swiggy", "", "Delivery", "Food", ⟨3, 0, 0, 2, 5⟩⟩

/-! ## Lemmas about the string primitives -/

theorem hasPref_iff (p : List Char) : ∀ l, hasPref p l = true ↔ ∃ t, l = p ++ t := by
  induction p with
  | nil => intro l; simp [hasPref]
  | cons a p ih =>
    intro l
    cases l with
    | nil => simp [hasPref]
    | cons b l =>
      simp only [hasPref, Bool.and_eq_true, decide_eq_true_eq, ih, List.cons_append,
        List.cons.injEq]
      constructor
      · rintro ⟨rfl, t, rfl⟩; exact ⟨t, rfl, rfl⟩
      · rintro ⟨t, rfl, rfl⟩; exact ⟨rfl, t, rfl⟩

theorem hasSub_iff (p : List Char) : ∀ l, hasSub p l = true ↔ ∃ a t, l = a ++ p ++ t := by
  intro l
  induction l with
  | nil =>
    simp only [hasSub, hasPref_iff]
    constructor
    · rintro ⟨t, ht⟩
      rcases List.append_eq_nil.mp ht.symm with ⟨rfl, rfl⟩
      exact ⟨[], [], rfl⟩
    · rintro ⟨a, t, ht⟩
      have h1 := List.append_eq_nil.mp ht.symm
      rcases List.append_eq_nil.mp h1.1 with ⟨rfl, rfl⟩
      exact ⟨[], by simp⟩
  | cons c l ih =>
    simp only [hasSub, Bool.or_eq_true, hasPref_iff, ih]
    constructor
    · rintro (⟨t, ht⟩ | ⟨a, t, ht⟩)
      · exact ⟨[], t, by simpa using ht⟩
      · exact ⟨c :: a, t, by simpa using ht⟩
    · rintro ⟨a, t, ht⟩
      cases a with
      | nil => exact Or.inl ⟨t, by simpa using ht⟩
      | cons x a =>
        right
        refine ⟨a, t, ?_⟩
        have h2 : c = x ∧ l = a ++ (p ++ t) := by simpa using ht
        simp [h2.2, List.append_assoc]

theorem hasSub_append_left (p a : List Char) {l : List Char}
    (h : hasSub p l = true) : hasSub p (a ++ l) = true := by
  rcases (hasSub_iff p l).mp h with ⟨u, t, rfl⟩
  exact (hasSub_iff p _).mpr ⟨a ++ u, t, by simp⟩

theorem hasSub_reverse {p l : List Char} (h : hasSub p l = true) :
    hasSub p.reverse l.reverse = true := by
  rcases (hasSub_iff p l).mp h with ⟨a, t, rfl⟩
  exact (hasSub_iff _ _).mpr ⟨t.reverse, a.reverse, by simp⟩

theorem hasSub_nil_pat : ∀ l, hasSub ([] : List Char) l = true := by
  intro l
  cases l <;> simp [hasSub, hasPref]

theorem hasSub_map_dropWhile {g : Char → Char} {ws : Char → Bool} {m : List Char}
    (hm : ∀ c, ws c = true → g c ∉ m) :
    ∀ l : List Char, hasSub m (l.map g) = true → hasSub m ((l.dropWhile ws).map g) = true := by
  intro l
  induction l with
  | nil => simp
  | cons c l ih =>
    intro h
    rw [List.dropWhile_cons]
    by_cases hws : ws c = true
    · simp only [hws, if_true]
      apply ih
      simp only [List.map_cons, hasSub, Bool.or_eq_true] at h
      rcases h with h | h
      · cases m with
        | nil => exact hasSub_nil_pat _
        | cons x m' =>
          exfalso
          rcases (hasPref_iff _ _).mp h with ⟨t, hmt⟩
          have hx : x = g c := by
            have h5 := congrArg List.head? hmt
            simpa using h5.symm
          subst hx
          exact (hm c hws) (List.mem_cons_self _ _)
      · exact h
    · simp only [hws, if_false]
      simpa using h

theorem hasSub_map_strip {g : Char → Char} {m : List Char}
    (hm : ∀ c, Char.isWhitespace c = true → g c ∉ m) (l : List Char)
    (h : hasSub m (l.map g) = true) : hasSub m ((pyStripL l).map g) = true := by
  have hm' : ∀ c, Char.isWhitespace c = true → g c ∉ m.reverse := by
    intro c hc
    simpa using hm c hc
  have h1 : hasSub m ((l.dropWhile Char.isWhitespace).map g) = true :=
    hasSub_map_dropWhile hm l h
  have h2 : hasSub m.reverse (((l.dropWhile Char.isWhitespace).reverse).map g) = true := by
    rw [List.map_reverse]
    exact hasSub_reverse h1
  have h3 : hasSub m.reverse
      ((((l.dropWhile Char.isWhitespace).reverse).dropWhile Char.isWhitespace).map g) = true :=
    hasSub_map_dropWhile hm' _ h2
  show hasSub m
      (((((l.dropWhile Char.isWhitespace).reverse).dropWhile Char.isWhitespace).reverse).map g)
      = true
  rw [List.map_reverse]
  have h4 := hasSub_reverse h3
  rwa [List.reverse_reverse] at h4

theorem string_append_cancel {s u t : String} (h : s ++ t = u ++ t) : s = u := by
  have h2 : s.data ++ t.data = u.data ++ t.data := by
    rw [← String.data_append, ← String.data_append, h]
  have h3 := List.append_cancel_right h2
  cases s; cases u; exact congrArg String.mk h3

theorem whitespace_lower_not_marker {m : List Char}
    (hsp : (' ' : Char) ∉ m) (htab : ('\t' : Char) ∉ m)
    (hcr : ('\r' : Char) ∉ m) (hlf : ('\n' : Char) ∉ m) :
    ∀ c, Char.isWhitespace c = true → Char.toLower c ∉ m := by
  intro c hc
  simp only [Char.isWhitespace, Bool.or_eq_true, decide_eq_true_eq] at hc
  rcases hc with ((rfl | rfl) | rfl) | rfl
  · simpa using hsp
  · simpa using htab
  · simpa using hcr
  · simpa using hlf

/-! ## The range of derived Sub Category values -/

theorem goodSub_classifyTableNo (t : String) : GoodSub (classifyTableNo t) := by
  unfold classifyTableNo GoodSub
  split
  · simp
  · split <;> simp

theorem pyLower_data (s : String) : (pyLower s).data = s.data.map Char.toLower := rfl

theorem goodSub_subCategory (x t : String) :
    GoodSub (subCategory (classifyTableNo t) (classifyChannel x)) := by
  unfold subCategory
  split
  · exact goodSub_classifyTableNo t
  · rename_i honl
    unfold classifyChannel at honl ⊢
    by_cases hc : (hasSub "swiggy".data (pyLower x).data
        || hasSub "zomato".data (pyLower x).data) = true
    · rw [if_pos hc]
      have hdata : (classifyTableNo t ++ " " ++ x).data
          = (classifyTableNo t ++ " ").data ++ x.data := by
        rw [← String.data_append]
      rcases Bool.or_eq_true _ _ |>.mp hc with hsw | hzo
      · refine Or.inr (Or.inr (Or.inr (Or.inl ?_)))
        rw [pyLower_data, pyStrip]
        apply hasSub_map_strip (whitespace_lower_not_marker (by decide) (by decide)
          (by decide) (by decide))
        rw [hdata, List.map_append]
        exact hasSub_append_left _ _ (by rw [← pyLower_data]; exact hsw)
      · refine Or.inr (Or.inr (Or.inr (Or.inr ?_)))
        rw [pyLower_data, pyStrip]
        apply hasSub_map_strip (whitespace_lower_not_marker (by decide) (by decide)
          (by decide) (by decide))
        rw [hdata, List.map_append]
        exact hasSub_append_left _ _ (by rw [← pyLower_data]; exact hzo)
    · rw [if_neg hc] at honl
      exact absurd rfl honl

theorem goodSub_not_orderType {s : String} (h : GoodSub s) :
    s ≠ "Dine-In" ∧ s ≠ "Take-Away" ∧ s ≠ "Delivery" := by
  refine ⟨?_, ?_, ?_⟩ <;> rintro rfl <;> revert h <;> decide

theorem goodSub_not_total {s : String} (h : GoodSub s) : s ∉ totalsToInclude := by
  intro hmem
  simp only [totalsToInclude, List.mem_cons, List.not_mem_nil, or_false] at hmem
  rcases hmem with rfl | rfl | rfl <;> revert h <;> decide

theorem goodSub_append_total_not_total {s : String} (h : GoodSub s) :
    s ++ " Total" ∉ totalsToInclude := by
  intro hmem
  simp only [totalsToInclude, List.mem_cons, List.not_mem_nil, or_false] at hmem
  have h3 := goodSub_not_orderType h
  rcases hmem with he | he | he
  · exact h3.2.2 (@string_append_cancel _ _ " Total" (by rw [he]; decide))
  · exact h3.1 (@string_append_cancel _ _ " Total" (by rw [he]; decide))
  · exact h3.2.1 (@string_append_cancel _ _ " Total" (by rw [he]; decide))

/-- **C9**: every derived Sub Category value is either the empty string,
"Counter Sweet Sales", "Scrap Sales", or contains "swiggy"/"zomato"
case-insensitively; consequently no sub-category subtotal label
`"{sub_cat} Total"` can equal one of the three order-type total labels in
`totals_to_include`, which is what keeps the label-based grand-total
selection from double counting. -/
theorem c9_subCategory_range (x t : String) :
    GoodSub (subCategory (classifyTableNo t) (classifyChannel x)) ∧
    subCategory (classifyTableNo t) (classifyChannel x) ++ " Total" ∉ totalsToInclude := by
  have h := goodSub_subCategory x t
  exact ⟨h, goodSub_append_total_not_total h⟩

/-- Closed instance of `c9_subCategory_range` at concrete inputs. -/
theorem c9_subCategory_range_witness :
    GoodSub (subCategory (classifyTableNo "sw 12") (classifyChannel "Zomato East")) ∧
    subCategory (classifyTableNo "sw 12") (classifyChannel "Zomato East") ++ " Total"
      ∉ totalsToInclude :=
  c9_subCategory_range "Zomato East" "sw 12"

/-! ## Pointwise behaviour of the collapsing passes -/

theorem setOT_eta {r : ReportRow} (h : r.orderType = "") : { r with orderType := "" } = r := by
  cases r
  simp_all

theorem setSC_eta {r : ReportRow} (h : r.subCat = "") : { r with subCat := "" } = r := by
  cases r
  simp_all

theorem collapseOTAux_get_zero (p : String) (l : List ReportRow) :
    (collapseOTAux p l)[0]? =
      (l[0]?).map (fun r => if r.orderType = p then { r with orderType := "" } else r) := by
  cases l <;> simp [collapseOTAux]

theorem collapseOTAux_get_succ :
    ∀ (l : List ReportRow) (p : String) (i : ℕ) (a : ReportRow), l[i]? = some a →
      (collapseOTAux p l)[i + 1]? =
        (l[i + 1]?).map
          (fun r => if r.orderType = a.orderType then { r with orderType := "" } else r) := by
  intro l
  induction l with
  | nil => intro p i a h; simp at h
  | cons c rest ih =>
    intro p i a h
    cases i with
    | zero =>
      have hc : a = c := by simpa using h.symm
      subst hc
      simpa [collapseOTAux] using collapseOTAux_get_zero a.orderType rest
    | succ j =>
      have h2 : rest[j]? = some a := by simpa using h
      simpa [collapseOTAux] using ih c.orderType j a h2

theorem collapseOT_get_zero (l : List ReportRow) : (collapseOT l)[0]? = l[0]? := by
  cases l <;> simp [collapseOT]

theorem collapseOT_get_succ :
    ∀ (l : List ReportRow) (i : ℕ) (a : ReportRow), l[i]? = some a →
      (collapseOT l)[i + 1]? =
        (l[i + 1]?).map
          (fun r => if r.orderType = a.orderType then { r with orderType := "" } else r) := by
  intro l
  cases l with
  | nil => intro i a h; simp at h
  | cons c rest =>
    intro i a h
    cases i with
    | zero =>
      have hc : a = c := by simpa using h.symm
      subst hc
      simpa [collapseOT] using collapseOTAux_get_zero a.orderType rest
    | succ j =>
      have h2 : rest[j]? = some a := by simpa using h
      simpa [collapseOT] using collapseOTAux_get_succ rest c.orderType j a h2

theorem collapseSCAux_get_zero (p : String) (l : List ReportRow) :
    (collapseSCAux p l)[0]? =
      (l[0]?).map (fun r => if r.subCat = p then { r with subCat := "" } else r) := by
  cases l <;> simp [collapseSCAux]

theorem collapseSCAux_get_succ :
    ∀ (l : List ReportRow) (p : String) (i : ℕ) (a : ReportRow), l[i]? = some a →
      (collapseSCAux p l)[i + 1]? =
        (l[i + 1]?).map
          (fun r => if r.subCat = a.subCat then { r with subCat := "" } else r) := by
  intro l
  induction l with
  | nil => intro p i a h; simp at h
  | cons c rest ih =>
    intro p i a h
    cases i with
    | zero =>
      have hc : a = c := by simpa using h.symm
      subst hc
      simpa [collapseSCAux] using collapseSCAux_get_zero a.subCat rest
    | succ j =>
      have h2 : rest[j]? = some a := by simpa using h
      simpa [collapseSCAux] using ih c.subCat j a h2

theorem collapseSC_get_zero (l : List ReportRow) : (collapseSC l)[0]? = l[0]? := by
  cases l <;> simp [collapseSC]

theorem collapseSC_get_succ :
    ∀ (l : List ReportRow) (i : ℕ) (a : ReportRow), l[i]? = some a →
      (collapseSC l)[i + 1]? =
        (l[i + 1]?).map
          (fun r => if r.subCat = a.subCat then { r with subCat := "" } else r) := by
  intro l
  cases l with
  | nil => intro i a h; simp at h
  | cons c rest =>
    intro i a h
    cases i with
    | zero =>
      have hc : a = c := by simpa using h.symm
      subst hc
      simpa [collapseSC] using collapseSCAux_get_zero a.subCat rest
    | succ j =>
      have h2 : rest[j]? = some a := by simpa using h
      simpa [collapseSC] using collapseSCAux_get_succ rest c.subCat j a h2

theorem collapseOTAux_mainCat (p : String) :
    ∀ l : List ReportRow, (collapseOTAux p l).map ReportRow.mainCat = l.map ReportRow.mainCat := by
  intro l
  induction l generalizing p with
  | nil => simp [collapseOTAux]
  | cons r rs ih =>
    simp only [collapseOTAux, List.map_cons, ih]
    congr 1
    split <;> rfl

theorem collapseSCAux_mainCat (p : String) :
    ∀ l : List ReportRow, (collapseSCAux p l).map ReportRow.mainCat = l.map ReportRow.mainCat := by
  intro l
  induction l generalizing p with
  | nil => simp [collapseSCAux]
  | cons r rs ih =>
    simp only [collapseSCAux, List.map_cons, ih]
    congr 1
    split <;> rfl

theorem collapse_mainCat (l : List ReportRow) :
    (collapse l).map ReportRow.mainCat = l.map ReportRow.mainCat := by
  cases l with
  | nil => rfl
  | cons r rs =>
    show (collapseSC (r :: collapseOTAux r.orderType rs)).map ReportRow.mainCat = _
    simp only [collapseSC, List.map_cons]
    rw [collapseSCAux_mainCat, collapseOTAux_mainCat]

/-- **C5**: in the collapsing pass over the final row sequence, the
Order Type and Sub Category cells of a row are blanked exactly when they
equal the immediately preceding row's value in the same column, the first
row is never altered, and the Main Category column is never collapsed. -/
theorem c5_collapse_pointwise (rows : List ReportRow) (i : ℕ) (a b : ReportRow)
    (ha : rows[i]? = some a) (hb : rows[i + 1]? = some b) :
    (collapse rows)[i + 1]? =
      some { b with
        orderType := if b.orderType = a.orderType then "" else b.orderType,
        subCat := if b.subCat = a.subCat then "" else b.subCat } ∧
    (collapse rows)[0]? = rows[0]? ∧
    ∀ j : ℕ, ((collapse rows)[j]?).map ReportRow.mainCat = (rows[j]?).map ReportRow.mainCat := by
  refine ⟨?_, ?_, ?_⟩
  · have hb' : (collapseOT rows)[i + 1]? =
        some (if b.orderType = a.orderType then { b with orderType := "" } else b) := by
      rw [collapseOT_get_succ rows i a ha, hb]
      rfl
    have ha' : ∃ c : ReportRow, (collapseOT rows)[i]? = some c ∧ c.subCat = a.subCat := by
      cases i with
      | zero =>
        exact ⟨a, by rw [collapseOT_get_zero]; exact ha, rfl⟩
      | succ j =>
        have hj : j < rows.length := by
          obtain ⟨hlt, -⟩ := List.getElem?_eq_some_iff.mp ha
          omega
        have hc0 : rows[j]? = some rows[j] := List.getElem?_eq_some_iff.mpr ⟨hj, rfl⟩
        refine ⟨if a.orderType = (rows[j]).orderType then { a with orderType := "" } else a,
          ?_, ?_⟩
        · rw [collapseOT_get_succ rows j rows[j] hc0, ha]
          rfl
        · split <;> rfl
    obtain ⟨c, hc, hcs⟩ := ha'
    show (collapseSC (collapseOT rows))[i + 1]? = _
    rw [collapseSC_get_succ (collapseOT rows) i c hc, hb']
    have hsub : (if b.orderType = a.orderType
        then { b with orderType := "" } else b : ReportRow).subCat = b.subCat := by
      split <;> rfl
    simp only [Option.map_some', hsub, hcs]
    congr 1
    by_cases h1 : b.orderType = a.orderType <;> by_cases h2 : b.subCat = a.subCat <;>
      simp [h1, h2]
  · show (collapseSC (collapseOT rows))[0]? = rows[0]?
    rw [collapseSC_get_zero, collapseOT_get_zero]
  · intro j
    have h1 := congrArg (fun l => l[j]?) (collapse_mainCat rows)
    simpa using h1

/-- Closed instance of `c5_collapse_pointwise` on a concrete two-row list,
with the hypotheses discharged by evaluation. -/
theorem c5_collapse_pointwise_witness :
    ([wRowA, wRowB] : List ReportRow)[0]? = some wRowA ∧
    ([wRowA, wRowB] : List ReportRow)[0 + 1]? = some wRowB ∧
    ((collapse [wRowA, wRowB])[0 + 1]? =
      some { wRowB with
        orderType := if wRowB.orderType = wRowA.orderType then "" else wRowB.orderType,
        subCat := if wRowB.subCat = wRowA.subCat then "" else wRowB.subCat } ∧
    (collapse [wRowA, wRowB])[0]? = ([wRowA, wRowB] : List ReportRow)[0]? ∧
    ∀ j : ℕ, ((collapse [wRowA, wRowB])[j]?).map ReportRow.mainCat =
      (([wRowA, wRowB] : List ReportRow)[j]?).map ReportRow.mainCat) :=
  ⟨by decide, by decide,
   c5_collapse_pointwise [wRowA, wRowB] 0 wRowA wRowB (by decide) (by decide)⟩

/-! ## Idempotence of collapsing -/

theorem collapseOTAux_idem :
    ∀ (l : List ReportRow) (p q : String), q = p ∨ q = "" →
      collapseOTAux q (collapseOTAux p l) = collapseOTAux p l := by
  intro l
  induction l with
  | nil => intro p q _; rfl
  | cons r rs ih =>
    intro p q hq
    by_cases hrp : r.orderType = p
    · have h1 : collapseOTAux p (r :: rs)
          = { r with orderType := "" } :: collapseOTAux r.orderType rs := by
        simp [collapseOTAux, hrp]
      rw [h1]
      have h2 : ({ r with orderType := "" } : ReportRow).orderType = "" := rfl
      simp only [collapseOTAux, h2]
      rw [ih r.orderType "" (Or.inr rfl)]
      by_cases hq0 : ("" : String) = q
      · rw [if_pos hq0]
      · rw [if_neg hq0]
    · have h1 : collapseOTAux p (r :: rs) = r :: collapseOTAux r.orderType rs := by
        simp [collapseOTAux, hrp]
      rw [h1]
      simp only [collapseOTAux]
      rw [ih r.orderType r.orderType (Or.inl rfl)]
      rcases hq with h | h
      · have hno : ¬ (r.orderType = q) := by rw [h]; exact hrp
        rw [if_neg hno]
      · by_cases hr0 : r.orderType = ""
        · have hyes : r.orderType = q := by rw [h, hr0]
          rw [if_pos hyes, setOT_eta hr0]
        · have hno : ¬ (r.orderType = q) := by rw [h]; exact hr0
          rw [if_neg hno]

theorem collapseSCAux_idem :
    ∀ (l : List ReportRow) (p q : String), q = p ∨ q = "" →
      collapseSCAux q (collapseSCAux p l) = collapseSCAux p l := by
  intro l
  induction l with
  | nil => intro p q _; rfl
  | cons r rs ih =>
    intro p q hq
    by_cases hrp : r.subCat = p
    · have h1 : collapseSCAux p (r :: rs)
          = { r with subCat := "" } :: collapseSCAux r.subCat rs := by
        simp [collapseSCAux, hrp]
      rw [h1]
      have h2 : ({ r with subCat := "" } : ReportRow).subCat = "" := rfl
      simp only [collapseSCAux, h2]
      rw [ih r.subCat "" (Or.inr rfl)]
      by_cases hq0 : ("" : String) = q
      · rw [if_pos hq0]
      · rw [if_neg hq0]
    · have h1 : collapseSCAux p (r :: rs) = r :: collapseSCAux r.subCat rs := by
        simp [collapseSCAux, hrp]
      rw [h1]
      simp only [collapseSCAux]
      rw [ih r.subCat r.subCat (Or.inl rfl)]
      rcases hq with h | h
      · have hno : ¬ (r.subCat = q) := by rw [h]; exact hrp
        rw [if_neg hno]
      · by_cases hr0 : r.subCat = ""
        · have hyes : r.subCat = q := by rw [h, hr0]
          rw [if_pos hyes, setSC_eta hr0]
        · have hno : ¬ (r.subCat = q) := by rw [h]; exact hr0
          rw [if_neg hno]

theorem collapseOT_idem (l : List ReportRow) : collapseOT (collapseOT l) = collapseOT l := by
  cases l with
  | nil => rfl
  | cons r rs =>
    show collapseOT (r :: collapseOTAux r.orderType rs) = _
    simp only [collapseOT]
    rw [collapseOTAux_idem rs r.orderType r.orderType (Or.inl rfl)]

theorem collapseSC_idem (l : List ReportRow) : collapseSC (collapseSC l) = collapseSC l := by
  cases l with
  | nil => rfl
  | cons r rs =>
    show collapseSC (r :: collapseSCAux r.subCat rs) = _
    simp only [collapseSC]
    rw [collapseSCAux_idem rs r.subCat r.subCat (Or.inl rfl)]

theorem collapseAux_comm :
    ∀ (l : List ReportRow) (p s : String),
      collapseOTAux p (collapseSCAux s l) = collapseSCAux s (collapseOTAux p l) := by
  intro l
  induction l with
  | nil => intro p s; rfl
  | cons r rs ih =>
    intro p s
    by_cases h1 : r.subCat = s <;> by_cases h2 : r.orderType = p <;>
      simp only [collapseSCAux, collapseOTAux, h1, h2, if_pos, if_neg, if_true, if_false,
        ite_true, ite_false, decide_eq_true_eq] <;>
      simp [collapseOTAux, collapseSCAux, h1, h2, ih]

theorem collapse_comm (l : List ReportRow) :
    collapseOT (collapseSC l) = collapseSC (collapseOT l) := by
  cases l with
  | nil => rfl
  | cons r rs =>
    show collapseOT (r :: collapseSCAux r.subCat rs)
      = collapseSC (r :: collapseOTAux r.orderType rs)
    simp only [collapseOT, collapseSC]
    rw [collapseAux_comm]

/-- **C6**: the label-collapsing pass is idempotent — collapsing an
already-collapsed row sequence returns it unchanged. -/
theorem c6_collapse_idem (rows : List ReportRow) :
    collapse (collapse rows) = collapse rows := by
  show collapseSC (collapseOT (collapseSC (collapseOT rows)))
    = collapseSC (collapseOT rows)
  rw [collapse_comm (collapseOT rows), collapseOT_idem, collapseSC_idem]

/-! ## C3: missing / non-numeric measures -/

/-- **C3 counterexample**: a non-numeric measure cell that is not one of the
pandas NA markers (here the text "abc" in the After Discount column) gives
the measure column object dtype, and the run aborts with an error instead of
treating the value as 0 — refuting the claim that any non-numeric measure is
summed as 0 and never raises. -/
theorem c3_nonnumeric_aborts :
    runPipeline [badNumRec] = .error "non-numeric measure column" := by
  rfl

/-- **C3 amended**: a numeric measure cell that is missing or one of the
recognised NA markers (such as "N/A") is treated as 0 in all downstream
sums, and a run whose measure cells are all numeric, missing or NA markers
produces the report — provided the assembled table is non-empty, that is,
at least one record has a recognised Order Type.  A clean input with no
such record (in particular an empty input) still aborts, with the KeyError
the collapse loop raises on the column-less empty table (line 149). -/
theorem c3_missing_as_zero (rs : List RawRec) (h : rs.all cleanRec = true) :
    (¬ (rawTable (grouped (rs.map toRec))).isEmpty = true →
      runPipeline rs = .ok (report (rs.map toRec))) ∧
    ((rawTable (grouped (rs.map toRec))).isEmpty = true →
      runPipeline rs = .error "KeyError: Order Type") ∧
    ∀ r ∈ rs, (r.afterDiscount = RawCell.missing ∨ r.afterDiscount = RawCell.str "N/A") →
      (toRec r).nums.afterDiscount = 0 := by
  refine ⟨?_, ?_, ?_⟩
  · intro hne
    unfold runPipeline
    rw [if_neg hne, if_pos h]
  · intro he
    unfold runPipeline
    rw [if_pos he]
  · rintro r - (he | he) <;>
      · show cellVal r.afterDiscount = 0
        rw [he]
        rfl

/-- Closed instance of `c3_missing_as_zero`: a clean Dine-In record with an
"N/A" measure cell runs to a report, and a clean record whose Order Type is
"Other" assembles an empty table and aborts. -/
theorem c3_missing_as_zero_witness :
    ([naRec].all cleanRec = true) ∧
    (¬ (rawTable (grouped ([naRec].map toRec))).isEmpty = true) ∧
    runPipeline [naRec] = .ok (report ([naRec].map toRec)) ∧
    (([otherRec].all cleanRec = true) ∧
      ((rawTable (grouped ([otherRec].map toRec))).isEmpty = true) ∧
      runPipeline [otherRec] = .error "KeyError: Order Type") :=
  ⟨by decide, by decide, (c3_missing_as_zero [naRec] (by decide)).1 (by decide),
    by decide, by decide, (c3_missing_as_zero [otherRec] (by decide)).2.1 (by decide)⟩

/-! ## C4: style selection by substring matching -/

/-- **C4 counterexample**: in the report for `c4recs` there are two rows of
the same kind (leaf) that receive different styles — a leaf row whose
Sub Category legitimately contains the word "Total" gets the totals style —
so the style assigned by the export code is derived by substring matching on
the rendered label and is not the claimed pure function of the row kind
(which would style every leaf row as normal). -/
theorem c4_style_counterexample :
    (∃ r ∈ report c4recs, r.kind = RKind.leaf ∧ cellFormat r = Style.total) ∧
    (∃ r ∈ report c4recs, r.kind = RKind.leaf ∧ cellFormat r = Style.normal) := by
  decide

/-! ## C8: order-independence of aggregation and of the report -/

theorem mem_uniqFirstAux {α : Type} [DecidableEq α] :
    ∀ (l seen : List α) (x : α), x ∈ uniqFirstAux seen l ↔ x ∈ l ∧ x ∉ seen := by
  intro l
  induction l with
  | nil => intro seen x; simp [uniqFirstAux]
  | cons a rest ih =>
    intro seen x
    simp only [uniqFirstAux]
    by_cases ha : a ∈ seen
    · rw [if_pos ha, ih]
      simp only [List.mem_cons]
      constructor
      · rintro ⟨h1, h2⟩
        exact ⟨Or.inr h1, h2⟩
      · rintro ⟨h1 | h1, h2⟩
        · subst h1; exact absurd ha h2
        · exact ⟨h1, h2⟩
    · rw [if_neg ha]
      simp only [List.mem_cons, ih]
      constructor
      · rintro (rfl | ⟨h1, h2⟩)
        · exact ⟨Or.inl rfl, ha⟩
        · exact ⟨Or.inr h1, fun hx => h2 (Or.inr hx)⟩
      · rintro ⟨rfl | h1, h2⟩
        · exact Or.inl rfl
        · by_cases hxa : x = a
          · exact Or.inl hxa
          · exact Or.inr ⟨h1, fun hx => by
              rcases hx with h | h
              · exact hxa h
              · exact h2 h⟩

theorem mem_uniqFirst {α : Type} [DecidableEq α] (l : List α) (x : α) :
    x ∈ uniqFirst l ↔ x ∈ l := by
  rw [uniqFirst, mem_uniqFirstAux]
  simp

theorem uniqFirstAux_nodup {α : Type} [DecidableEq α] :
    ∀ (l seen : List α), (uniqFirstAux seen l).Nodup := by
  intro l
  induction l with
  | nil => intro seen; simp [uniqFirstAux]
  | cons a rest ih =>
    intro seen
    simp only [uniqFirstAux]
    by_cases ha : a ∈ seen
    · rw [if_pos ha]
      exact ih seen
    · rw [if_neg ha]
      refine List.nodup_cons.mpr ⟨?_, ih (a :: seen)⟩
      intro hmem
      exact ((mem_uniqFirstAux rest (a :: seen) a).mp hmem).2 (List.mem_cons_self a seen)

theorem uniqFirst_nodup {α : Type} [DecidableEq α] (l : List α) : (uniqFirst l).Nodup :=
  uniqFirstAux_nodup l []

theorem uniqFirst_perm {α : Type} [DecidableEq α] {l l' : List α} (h : l.Perm l') :
    (uniqFirst l).Perm (uniqFirst l') := by
  refine (List.perm_ext_iff_of_nodup (uniqFirst_nodup l) (uniqFirst_nodup l')).mpr ?_
  intro x
  rw [mem_uniqFirst, mem_uniqFirst]
  exact h.mem_iff

theorem listLt_irrefl : ∀ x : List Char, listLt x x = false := by
  intro x
  induction x with
  | nil => rfl
  | cons a as ih => simp [listLt, ih]

theorem listLt_false_asymm : ∀ x y : List Char,
    listLt x y = false → listLt y x = false → x = y := by
  intro x
  induction x with
  | nil =>
    intro y h1 h2
    cases y with
    | nil => rfl
    | cons b bs => simp [listLt] at h1
  | cons a as ih =>
    intro y h1 h2
    cases y with
    | nil => simp [listLt] at h2
    | cons b bs =>
      simp only [listLt] at h1 h2
      by_cases hab : a < b
      · simp [hab] at h1
      · by_cases hba : b < a
        · simp [hab, hba] at h2
        · have heq : a = b := le_antisymm (not_lt.mp hba) (not_lt.mp hab)
          subst heq
          simp [hab] at h1 h2
          rw [ih bs h1 h2]

theorem listLt_lex_iff : ∀ x y : List Char, listLt x y = true ↔ List.Lex (· < ·) x y := by
  intro x
  induction x with
  | nil =>
    intro y
    cases y with
    | nil =>
      simp only [listLt, Bool.false_eq_true, false_iff]
      intro h
      cases h
    | cons b bs =>
      simp only [listLt, true_iff]
      exact List.Lex.nil
  | cons a as ih =>
    intro y
    cases y with
    | nil =>
      simp only [listLt, Bool.false_eq_true, false_iff]
      intro h
      cases h
    | cons b bs =>
      simp only [listLt]
      by_cases hab : a < b
      · simp only [hab, if_true, true_iff]
        exact List.Lex.rel hab
      · by_cases hba : b < a
        · simp only [hab, hba, if_false, if_true, Bool.false_eq_true, false_iff]
          intro h
          cases h with
          | cons h' => exact absurd hba (lt_irrefl a)
          | rel h' => exact hab h'
        · have heq : a = b := le_antisymm (not_lt.mp hba) (not_lt.mp hab)
          subst heq
          simp only [hab, hba, if_false, ih]
          constructor
          · intro h
            exact List.Lex.cons h
          · intro h
            cases h with
            | cons h3 => exact h3
            | rel h' => exact absurd h' hab

theorem listLt_asymm : ∀ x y : List Char, listLt x y = true → listLt y x = false := by
  intro x
  induction x with
  | nil =>
    intro y h
    cases y with
    | nil => rfl
    | cons b bs => rfl
  | cons a as ih =>
    intro y h
    cases y with
    | nil => simp [listLt] at h
    | cons b bs =>
      simp only [listLt] at h ⊢
      by_cases hab : a < b
      · have hba : ¬ b < a := lt_asymm hab
        simp [hab, hba]
      · by_cases hba : b < a
        · simp [hab, hba] at h
        · simp only [hab, hba, if_false] at h ⊢
          exact ih bs h

theorem strLt_iff (s t : String) : s < t ↔ listLt s.data t.data = true := by
  rw [String.lt_iff_toList_lt]
  show List.Lex (fun c d => c < d) s.data t.data ↔ _
  exact (listLt_lex_iff s.data t.data).symm

theorem strLe_iff (s t : String) : s ≤ t ↔ listLt t.data s.data = false := by
  show ¬ (t < s) ↔ _
  rw [strLt_iff]
  simp

theorem strEq_iff (s t : String) :
    s = t ↔ (listLt s.data t.data = false ∧ listLt t.data s.data = false) := by
  constructor
  · rintro rfl
    exact ⟨listLt_irrefl _, listLt_irrefl _⟩
  · rintro ⟨h1, h2⟩
    have h3 := listLt_false_asymm _ _ h1 h2
    cases s
    cases t
    exact congrArg String.mk h3

theorem keyLE_iff_tuple (a b : Key) : keyLE a b ↔ keyTuple a ≤ keyTuple b := by
  show keyLEb a b = true ↔ _
  rw [keyTuple, keyTuple]
  simp only [Prod.Lex.le_iff]
  unfold keyLEb
  split_ifs with h1 h2 h3 h4 h5 h6 h7 h8 <;>
    simp only [true_iff, false_iff, Bool.false_eq_true, Bool.true_eq_false, not_or, not_and,
      false_implies, true_implies]
  · exact Or.inl h1
  · exact ⟨by omega, fun hr => absurd hr (by omega)⟩
  · exact Or.inr ⟨by omega, Or.inl ((strLt_iff _ _).mpr h3)⟩
  · refine ⟨by omega, fun hr => ⟨?_, ?_⟩⟩
    · exact fun hlt => h3 ((strLt_iff _ _).mp hlt)
    · intro htag
      exact absurd ((strEq_iff _ _).mp htag).2 (by simp [h4])
  · refine Or.inr ⟨by omega, Or.inr ⟨?_, Or.inl ((strLt_iff _ _).mpr h5)⟩⟩
    exact (strEq_iff _ _).mpr ⟨Bool.eq_false_iff.mpr h3, Bool.eq_false_iff.mpr h4⟩
  · refine ⟨by omega, fun hr => ⟨?_, fun htag => ⟨?_, ?_⟩⟩⟩
    · exact fun hlt => h3 ((strLt_iff _ _).mp hlt)
    · exact fun hlt => h5 ((strLt_iff _ _).mp hlt)
    · intro hsub
      exact absurd ((strEq_iff _ _).mp hsub).2 (by simp [h6])
  · refine Or.inr ⟨by omega, Or.inr ⟨?_, Or.inr ⟨?_, ?_⟩⟩⟩
    · exact (strEq_iff _ _).mpr ⟨Bool.eq_false_iff.mpr h3, Bool.eq_false_iff.mpr h4⟩
    · exact (strEq_iff _ _).mpr ⟨Bool.eq_false_iff.mpr h5, Bool.eq_false_iff.mpr h6⟩
    · rw [strLe_iff]
      exact listLt_asymm _ _ h7
  · refine ⟨by omega, fun hr => ⟨?_, fun htag => ⟨?_, fun hsub => ?_⟩⟩⟩
    · exact fun hlt => h3 ((strLt_iff _ _).mp hlt)
    · exact fun hlt => h5 ((strLt_iff _ _).mp hlt)
    · intro hle
      rw [strLe_iff] at hle
      simp [h8] at hle
  · refine Or.inr ⟨by omega, Or.inr ⟨?_, Or.inr ⟨?_, ?_⟩⟩⟩
    · exact (strEq_iff _ _).mpr ⟨Bool.eq_false_iff.mpr h3, Bool.eq_false_iff.mpr h4⟩
    · exact (strEq_iff _ _).mpr ⟨Bool.eq_false_iff.mpr h5, Bool.eq_false_iff.mpr h6⟩
    · rw [strLe_iff]
      exact Bool.eq_false_iff.mpr h8

theorem keyLE_total (a b : Key) : keyLE a b ∨ keyLE b a := by
  rw [keyLE_iff_tuple, keyLE_iff_tuple]
  exact le_total _ _

theorem keyLE_trans {a b c : Key} (h1 : keyLE a b) (h2 : keyLE b c) : keyLE a c := by
  rw [keyLE_iff_tuple] at h1 h2 ⊢
  exact le_trans h1 h2

theorem otRank_otTag_inj {x y : String} (h1 : otRank x = otRank y) (h2 : otTag x = otTag y) :
    x = y := by
  unfold otRank at h1
  unfold otTag otRank at h2
  split_ifs at h1 h2 <;> simp_all

theorem keyTuple_inj : Function.Injective keyTuple := by
  intro a b h
  unfold keyTuple at h
  have h0 := toLex.injective h
  have h1 : otRank a.orderType = otRank b.orderType := congrArg Prod.fst h0
  have h0' := toLex.injective (congrArg Prod.snd h0)
  have h2 : otTag a.orderType = otTag b.orderType := congrArg Prod.fst h0'
  have h0'' := toLex.injective (congrArg Prod.snd h0')
  have h3 : a.subCat = b.subCat := congrArg Prod.fst h0''
  have h4 : a.mainCat = b.mainCat := congrArg Prod.snd h0''
  cases a; cases b
  simp_all
  exact otRank_otTag_inj h1 h2

theorem keyLE_antisymm {a b : Key} (h1 : keyLE a b) (h2 : keyLE b a) : a = b := by
  rw [keyLE_iff_tuple] at h1 h2
  exact keyTuple_inj (le_antisymm h1 h2)

theorem sortKeys_sorted (ks : List Key) : List.Sorted keyLE (sortKeys ks) := by
  haveI : IsTotal Key keyLE := ⟨keyLE_total⟩
  haveI : IsTrans Key keyLE := ⟨fun _ _ _ => keyLE_trans⟩
  exact List.sorted_insertionSort keyLE ks

theorem sortKeys_eq_of_perm {ks ks' : List Key} (h : ks.Perm ks') :
    sortKeys ks = sortKeys ks' := by
  haveI : IsAntisymm Key keyLE := ⟨fun _ _ h1 h2 => keyLE_antisymm h1 h2⟩
  exact List.eq_of_perm_of_sorted
    ((List.perm_insertionSort keyLE ks).trans (h.trans (List.perm_insertionSort keyLE ks').symm))
    (sortKeys_sorted ks) (sortKeys_sorted ks')

theorem sumNums_perm {l l' : List Nums} (h : l.Perm l') : sumNums l = sumNums l' := by
  unfold sumNums
  rw [(h.map Nums.afterDiscount).sum_eq, (h.map Nums.cgst).sum_eq, (h.map Nums.sgst).sum_eq,
    (h.map Nums.deliveryCharge).sum_eq, (h.map Nums.totalPrice).sum_eq]

theorem aggNums_perm {recs recs' : List Rec} (h : recs.Perm recs') (k : Key) :
    aggNums recs k = aggNums recs' k :=
  sumNums_perm ((h.filter _).map Rec.nums)

theorem grouped_perm_inv {recs recs' : List Rec} (h : recs.Perm recs') :
    grouped recs = grouped recs' := by
  unfold grouped groupKeys
  rw [sortKeys_eq_of_perm (uniqFirst_perm (h.map recKey))]
  have ha : aggNums recs = aggNums recs' := funext (fun k => aggNums_perm h k)
  rw [ha]

/-- **C8**: input collections that are permutations of each other produce
the same aggregated key-to-sums rows and an identical assembled report. -/
theorem c8_perm_invariant (recs recs' : List Rec) (h : recs.Perm recs') :
    grouped recs = grouped recs' ∧ report recs = report recs' := by
  have hg := grouped_perm_inv h
  refine ⟨hg, ?_⟩
  unfold report buildFinalTable
  rw [hg]

/-- Closed instance of `c8_perm_invariant` on a two-record shuffle. -/
theorem c8_perm_invariant_witness :
    ([w8a, w8b].Perm [w8b, w8a]) ∧
    (grouped [w8a, w8b] = grouped [w8b, w8a] ∧ report [w8a, w8b] = report [w8b, w8a]) :=
  ⟨by decide, c8_perm_invariant [w8a, w8b] [w8b, w8a] (by decide)⟩

/-! ## Shape of the assembled table -/

theorem adjOK_of_leaf {a b : ReportRow} (h : b.kind = RKind.leaf) : AdjOK a b := by
  refine ⟨?_, ?_, ?_⟩
  · intro h'
    rcases h' with h' | h' <;> rw [h] at h' <;> cases h'
  · intro h'
    rw [h] at h'
    cases h'
  · intro h'
    rw [h] at h'
    cases h'

theorem ne_self_append_total (s : String) : s ≠ s ++ " Total" := by
  intro h
  have h2 := congrArg String.length h
  rw [String.length_append] at h2
  have h3 : (" Total" : String).length = 6 := rfl
  omega

theorem mem_orderTypeOrder {ot : String} (h : ot ∈ orderTypeOrder) :
    ot = "Dine-In" ∨ ot = "Take-Away" ∨ ot = "Delivery" := by
  simpa [orderTypeOrder] using h

theorem pyStrip_orderType {ot : String} (h : ot ∈ orderTypeOrder) : pyStrip ot = ot := by
  rcases mem_orderTypeOrder h with rfl | rfl | rfl <;> rfl

theorem orderType_ne_empty {ot : String} (h : ot ∈ orderTypeOrder) : ot ≠ "" := by
  rcases mem_orderTypeOrder h with rfl | rfl | rfl <;> decide

theorem leafRows_kind : ∀ (sdf : List AggRow) (ot : String) (w : Bool),
    ∀ r ∈ leafRows ot w sdf, r.kind = RKind.leaf := by
  intro sdf
  induction sdf with
  | nil => intro ot w r hr; simp [leafRows] at hr
  | cons a rest ih =>
    intro ot w r hr
    simp only [leafRows, List.mem_cons] at hr
    rcases hr with rfl | hr
    · rfl
    · exact ih ot true r hr

theorem leafRows_subCat : ∀ (sdf : List AggRow) (ot : String) (w : Bool),
    ∀ r ∈ leafRows ot w sdf, ∃ a ∈ sdf, r.subCat = a.key.subCat := by
  intro sdf
  induction sdf with
  | nil => intro ot w r hr; simp [leafRows] at hr
  | cons a rest ih =>
    intro ot w r hr
    simp only [leafRows, List.mem_cons] at hr
    rcases hr with rfl | hr
    · exact ⟨a, List.mem_cons_self a rest, rfl⟩
    · obtain ⟨a', ha', h⟩ := ih ot true r hr
      exact ⟨a', List.mem_cons_of_mem a ha', h⟩

theorem leafRows_triple : ∀ (sdf : List AggRow) (ot : String) (w : Bool),
    (leafRows ot w sdf).map rowTriple = sdf.map aggTriple := by
  intro sdf
  induction sdf with
  | nil => intro ot w; rfl
  | cons a rest ih =>
    intro ot w
    simp only [leafRows, List.map_cons, ih ot true]
    rfl

theorem leafRows_rowOK : ∀ (sdf : List AggRow) (ot : String) (w : Bool),
    (∀ a ∈ sdf, GoodSub a.key.subCat) → ot ∈ orderTypeOrder →
    ∀ r ∈ leafRows ot w sdf, RowOK r := by
  intro sdf
  induction sdf with
  | nil => intro ot w _ _ r hr; simp [leafRows] at hr
  | cons a rest ih =>
    intro ot w hg hot r hr
    simp only [leafRows, List.mem_cons] at hr
    rcases hr with rfl | hr
    · show RowOK (leafRowOf ot w a)
      refine ⟨hg a (List.mem_cons_self a rest), ?_, rfl⟩
      cases w
      · exact Or.inl hot
      · exact Or.inr rfl
    · exact ih ot true (fun x hx => hg x (List.mem_cons_of_mem a hx)) hot r hr

theorem leafRows_chain : ∀ (sdf : List AggRow) (ot : String) (w : Bool),
    List.Chain' AdjOK (leafRows ot w sdf) := by
  intro sdf
  induction sdf with
  | nil => intro ot w; simp [leafRows]
  | cons a rest ih =>
    intro ot w
    rw [leafRows, List.chain'_cons']
    refine ⟨?_, ih ot true⟩
    intro b hb
    exact adjOK_of_leaf (leafRows_kind rest ot true b (List.mem_of_mem_head? hb))

theorem leafRows_ne_nil {sdf : List AggRow} (h : sdf ≠ []) (ot : String) (w : Bool) :
    leafRows ot w sdf ≠ [] := by
  cases sdf with
  | nil => exact absurd rfl h
  | cons a rest => simp [leafRows]

theorem subCatBlocks_kind : ∀ (scs : List String) (ot : String) (w : Bool) (odf : List AggRow),
    ∀ r ∈ subCatBlocks ot w odf scs, r.kind = RKind.leaf ∨ r.kind = RKind.subTotal := by
  intro scs
  induction scs with
  | nil => intro ot w odf r hr; simp [subCatBlocks] at hr
  | cons sc rest ih =>
    intro ot w odf r hr
    simp only [subCatBlocks, List.append_assoc, List.mem_append, List.mem_singleton] at hr
    rcases hr with hr | rfl | hr
    · exact Or.inl (leafRows_kind _ ot w r hr)
    · exact Or.inr rfl
    · exact ih ot _ odf r hr

theorem subCatBlocks_rowOK :
    ∀ (scs : List String) (ot : String) (w : Bool) (odf : List AggRow),
      ot ∈ orderTypeOrder → (∀ a ∈ odf, GoodSub a.key.subCat) → (∀ sc ∈ scs, GoodSub sc) →
      ∀ r ∈ subCatBlocks ot w odf scs, RowOK r := by
  intro scs
  induction scs with
  | nil => intro ot w odf _ _ _ r hr; simp [subCatBlocks] at hr
  | cons sc rest ih =>
    intro ot w odf hot hg hscs r hr
    simp only [subCatBlocks, List.append_assoc, List.mem_append, List.mem_singleton] at hr
    rcases hr with hr | rfl | hr
    · refine leafRows_rowOK _ ot w ?_ hot r hr
      intro a ha
      exact hg a (List.mem_of_mem_filter ha)
    · show RowOK (subTotalRow sc _)
      exact ⟨⟨sc, hscs sc (List.mem_cons_self sc rest), rfl⟩, rfl, rfl⟩
    · exact ih ot _ odf hot hg (fun x hx => hscs x (List.mem_cons_of_mem sc hx)) r hr

theorem subCatBlocks_ne_nil {scs : List String} (h : scs ≠ []) (ot : String) (w : Bool)
    (odf : List AggRow) : subCatBlocks ot w odf scs ≠ [] := by
  cases scs with
  | nil => exact absurd rfl h
  | cons sc rest =>
    simp only [subCatBlocks]
    intro hx
    rcases List.append_eq_nil.mp hx with ⟨h1, -⟩
    rcases List.append_eq_nil.mp h1 with ⟨-, h2⟩
    cases h2

theorem subCatBlocks_head_leaf :
    ∀ (scs : List String) (ot : String) (w : Bool) (odf : List AggRow),
      (∀ sc ∈ scs, odf.filter (fun a => a.key.subCat = sc) ≠ []) →
      ∀ r ∈ (subCatBlocks ot w odf scs).head?, r.kind = RKind.leaf := by
  intro scs
  cases scs with
  | nil => intro ot w odf _ r hr; simp [subCatBlocks] at hr
  | cons sc rest =>
    intro ot w odf hs r hr
    have hsdf : odf.filter (fun a => a.key.subCat = sc) ≠ [] :=
      hs sc (List.mem_cons_self sc rest)
    simp only [subCatBlocks, List.append_assoc] at hr
    rw [List.head?_append] at hr
    cases hlf : (leafRows ot w (odf.filter (fun a => a.key.subCat = sc))).head? with
    | none =>
      exfalso
      exact leafRows_ne_nil hsdf ot w (List.head?_eq_none_iff.mp hlf)
    | some x =>
      rw [hlf] at hr
      have hrx : x = r := by
        simpa using hr
      subst hrx
      exact leafRows_kind _ ot w x (List.mem_of_mem_head? (by rw [hlf]; rfl))

theorem subCatBlocks_last_subTotal :
    ∀ (scs : List String) (ot : String) (w : Bool) (odf : List AggRow), scs ≠ [] →
      ∀ r ∈ (subCatBlocks ot w odf scs).getLast?, r.kind = RKind.subTotal := by
  intro scs
  induction scs with
  | nil => intro ot w odf h; exact absurd rfl h
  | cons sc rest ih =>
    intro ot w odf _ r hr
    cases hrest : rest with
    | nil =>
      subst hrest
      simp only [subCatBlocks, List.append_nil] at hr
      rw [List.getLast?_append_of_ne_nil _ (by simp : ([subTotalRow sc _] : List ReportRow) ≠ [])]
        at hr
      have : subTotalRow sc (odf.filter (fun a => a.key.subCat = sc)) = r := by simpa using hr
      rw [← this]
      rfl
    | cons sc2 rest2 =>
      simp only [subCatBlocks 
        ] at hr
      rw [List.getLast?_append_of_ne_nil _
        (subCatBlocks_ne_nil (by simp [hrest]) ot _ odf)] at hr
      exact ih ot _ odf (by simp [hrest]) r hr

theorem subCatBlocks_chain :
    ∀ (scs : List String) (ot : String) (w : Bool) (odf : List AggRow),
      (∀ sc ∈ scs, odf.filter (fun a => a.key.subCat = sc) ≠ []) →
      List.Chain' AdjOK (subCatBlocks ot w odf scs) := by
  intro scs
  induction scs with
  | nil => intro ot w odf _; simp [subCatBlocks]
  | cons sc rest ih =>
    intro ot w odf hs
    have hsdf : odf.filter (fun a => a.key.subCat = sc) ≠ [] :=
      hs sc (List.mem_cons_self sc rest)
    rw [subCatBlocks, List.chain'_append]
    refine ⟨?_, ih ot _ odf (fun x hx => hs x (List.mem_cons_of_mem sc hx)), ?_⟩
    · rw [List.chain'_append]
      refine ⟨leafRows_chain _ ot w, List.chain'_singleton _, ?_⟩
      intro x hx y hy
      have hy2 : subTotalRow sc (odf.filter (fun a => a.key.subCat = sc)) = y := by simpa using hy
      subst hy2
      refine ⟨?_, ?_, ?_⟩
      · intro _
        obtain ⟨a, ha, hax⟩ := leafRows_subCat _ ot w x (List.mem_of_mem_getLast? hx)
        have hasc : a.key.subCat = sc := by
          have := List.mem_filter.mp ha
          simpa using this.2
        rw [hax, hasc]
        exact ne_self_append_total sc
      · intro h'
        cases h'
      · intro h'
        cases h'
    · intro x hx y hy
      exact adjOK_of_leaf
        (subCatBlocks_head_leaf rest ot _ odf
          (fun z hz => hs z (List.mem_cons_of_mem sc hz)) y hy)

theorem leafRows_filter_leaf (sdf : List AggRow) (ot : String) (w : Bool) :
    (leafRows ot w sdf).filter (fun r => r.kind = RKind.leaf) = leafRows ot w sdf :=
  List.filter_eq_self.mpr (fun r hr => by
    simp [leafRows_kind sdf ot w r hr])

theorem leafRows_filter_other (sdf : List AggRow) (ot : String) (w : Bool) (k : RKind)
    (hk : ¬ k = RKind.leaf) :
    (leafRows ot w sdf).filter (fun r => r.kind = k) = [] :=
  List.filter_eq_nil_iff.mpr (fun r hr => by
    have h1 := leafRows_kind sdf ot w r hr
    simp only [h1, decide_eq_true_eq]
    exact fun h => hk h.symm)

theorem subCatBlocks_filter_leaf :
    ∀ (scs : List String) (ot : String) (w : Bool) (odf : List AggRow),
      ((subCatBlocks ot w odf scs).filter (fun r => r.kind = RKind.leaf)).map rowTriple
        = (scs.map (fun sc => (odf.filter (fun a => a.key.subCat = sc)).map aggTriple)).flatten := by
  intro scs
  induction scs with
  | nil => intro ot w odf; rfl
  | cons sc rest ih =>
    intro ot w odf
    rw [subCatBlocks, List.filter_append, List.filter_append, List.map_append, List.map_append,
      leafRows_filter_leaf, leafRows_triple]
    have h1 : ([subTotalRow sc (odf.filter (fun a => a.key.subCat = sc))].filter
        (fun r => r.kind = RKind.leaf)) = [] := by
      simp [subTotalRow]
    rw [h1, ih]
    simp

theorem subCatBlocks_filter_subTotal :
    ∀ (scs : List String) (ot : String) (w : Bool) (odf : List AggRow),
      (subCatBlocks ot w odf scs).filter (fun r => r.kind = RKind.subTotal)
        = scs.map (fun sc => subTotalRow sc (odf.filter (fun a => a.key.subCat = sc))) := by
  intro scs
  induction scs with
  | nil => intro ot w odf; rfl
  | cons sc rest ih =>
    intro ot w odf
    rw [subCatBlocks, List.filter_append, List.filter_append,
      leafRows_filter_other _ ot w RKind.subTotal (by intro h; cases h), ih]
    simp [subTotalRow]

theorem subCatBlocks_filter_other :
    ∀ (scs : List String) (ot : String) (w : Bool) (odf : List AggRow) (k : RKind),
      ¬ k = RKind.leaf → ¬ k = RKind.subTotal →
      (subCatBlocks ot w odf scs).filter (fun r => r.kind = k) = [] := by
  intro scs ot w odf k h1 h2
  refine List.filter_eq_nil_iff.mpr (fun r hr => ?_)
  rcases subCatBlocks_kind scs ot w odf r hr with h | h <;>
    simp only [h, decide_eq_true_eq]
  · exact fun h' => h1 h'.symm
  · exact fun h' => h2 h'.symm

/-! ## Shape of one order-type section -/

theorem typeBlock_eq {g : List AggRow} {ot : String}
    (h : g.filter (fun a => a.key.orderType = ot) ≠ []) :
    typeBlock g ot =
      subCatBlocks ot false (g.filter (fun a => a.key.orderType = ot))
          (uniqFirst ((g.filter (fun a => a.key.orderType = ot)).map (fun a => a.key.subCat)))
        ++ [typeTotalRow ot (g.filter (fun a => a.key.orderType = ot))]
        ++ (if ot = "Take-Away" then [blankRow] else []) := by
  rw [typeBlock]
  rw [if_neg]
  simp [List.isEmpty_iff, h]

theorem typeBlock_empty {g : List AggRow} {ot : String}
    (h : g.filter (fun a => a.key.orderType = ot) = []) : typeBlock g ot = [] := by
  rw [typeBlock]
  rw [if_pos]
  simp [List.isEmpty_iff, h]

theorem uniqFirst_scs_ne_nil {odf : List AggRow} :
    ∀ sc ∈ uniqFirst (odf.map (fun a => a.key.subCat)),
      odf.filter (fun a => a.key.subCat = sc) ≠ [] := by
  intro sc hsc
  have h1 : sc ∈ odf.map (fun a => a.key.subCat) := (mem_uniqFirst _ sc).mp hsc
  obtain ⟨a, ha, rfl⟩ := List.mem_map.mp h1
  intro hnil
  have : a ∈ odf.filter (fun x => x.key.subCat = a.key.subCat) :=
    List.mem_filter.mpr ⟨ha, by simp⟩
  rw [hnil] at this
  cases this

theorem uniqFirst_scs_goodSub {odf : List AggRow} (hg : ∀ a ∈ odf, GoodSub a.key.subCat) :
    ∀ sc ∈ uniqFirst (odf.map (fun a => a.key.subCat)), GoodSub sc := by
  intro sc hsc
  have h1 : sc ∈ odf.map (fun a => a.key.subCat) := (mem_uniqFirst _ sc).mp hsc
  obtain ⟨a, ha, rfl⟩ := List.mem_map.mp h1
  exact hg a ha

theorem uniqFirst_ne_nil {α : Type} [DecidableEq α] {l : List α} (h : l ≠ []) :
    uniqFirst l ≠ [] := by
  cases l with
  | nil => exact absurd rfl h
  | cons a rest => simp [uniqFirst, uniqFirstAux]

theorem typeBlock_rowOK {g : List AggRow} {ot : String}
    (hg : ∀ a ∈ g, GoodSub a.key.subCat) (hot : ot ∈ orderTypeOrder) :
    ∀ r ∈ typeBlock g ot, RowOK r := by
  intro r hr
  by_cases hodf : g.filter (fun a => a.key.orderType = ot) = []
  · rw [typeBlock_empty hodf] at hr
    cases hr
  · rw [typeBlock_eq hodf] at hr
    have hgood : ∀ a ∈ g.filter (fun a => a.key.orderType = ot), GoodSub a.key.subCat :=
      fun a ha => hg a (List.mem_of_mem_filter ha)
    simp only [List.mem_append] at hr
    rcases hr with (hr | hr) | hr
    · exact subCatBlocks_rowOK _ ot false _ hot hgood (uniqFirst_scs_goodSub hgood) r hr
    · have heq : r = typeTotalRow ot (g.filter (fun a => a.key.orderType = ot)) := by
        simpa using hr
      rw [heq]
      refine ⟨hot, ?_, rfl⟩
      show pyStrip ot ++ " Total" = ot ++ " Total"
      rw [pyStrip_orderType hot]
    · by_cases hta : ot = "Take-Away"
      · rw [if_pos hta] at hr
        have heq : r = blankRow := by simpa using hr
        rw [heq]
        rfl
      · rw [if_neg hta] at hr
        cases hr

theorem typeBlock_head_leaf {g : List AggRow} {ot : String} :
    ∀ r ∈ (typeBlock g ot).head?, r.kind = RKind.leaf := by
  intro r hr
  by_cases hodf : g.filter (fun a => a.key.orderType = ot) = []
  · rw [typeBlock_empty hodf] at hr
    cases hr
  · rw [typeBlock_eq hodf] at hr
    have hne : subCatBlocks ot false (g.filter (fun a => a.key.orderType = ot))
        (uniqFirst ((g.filter (fun a => a.key.orderType = ot)).map (fun a => a.key.subCat)))
        ≠ [] :=
      subCatBlocks_ne_nil (uniqFirst_ne_nil (by simpa using hodf)) ot false _
    rw [List.append_assoc, List.head?_append] at hr
    cases hsb : (subCatBlocks ot false (g.filter (fun a => a.key.orderType = ot))
        (uniqFirst ((g.filter (fun a => a.key.orderType = ot)).map
          (fun a => a.key.subCat)))).head? with
    | none => exact absurd (List.head?_eq_none_iff.mp hsb) hne
    | some x =>
      rw [hsb] at hr
      have hrx : x = r := by simpa using hr
      subst hrx
      exact subCatBlocks_head_leaf _ ot false _ uniqFirst_scs_ne_nil x
        (by rw [hsb]; rfl)

theorem typeBlock_chain {g : List AggRow} {ot : String}
    (hg : ∀ a ∈ g, GoodSub a.key.subCat) (hot : ot ∈ orderTypeOrder) :
    List.Chain' AdjOK (typeBlock g ot) := by
  by_cases hodf : g.filter (fun a => a.key.orderType = ot) = []
  · rw [typeBlock_empty hodf]
    simp
  · rw [typeBlock_eq hodf]
    have hgood : ∀ a ∈ g.filter (fun a => a.key.orderType = ot), GoodSub a.key.subCat :=
      fun a ha => hg a (List.mem_of_mem_filter ha)
    have hscs := @uniqFirst_scs_ne_nil (g.filter (fun a => a.key.orderType = ot))
    have hscs_ne : uniqFirst ((g.filter (fun a => a.key.orderType = ot)).map
        (fun a => a.key.subCat)) ≠ [] := uniqFirst_ne_nil (by simpa using hodf)
    rw [List.chain'_append]
    refine ⟨?_, ?_, ?_⟩
    · rw [List.chain'_append]
      refine ⟨subCatBlocks_chain _ ot false _ hscs, List.chain'_singleton _, ?_⟩
      intro x hx y hy
      have hy2 : y = typeTotalRow ot (g.filter (fun a => a.key.orderType = ot)) := by
        simpa using hy.symm
      subst hy2
      have hxk : x.kind = RKind.subTotal :=
        subCatBlocks_last_subTotal _ ot false _ hscs_ne x hx
      have hxok : RowOK x := subCatBlocks_rowOK _ ot false _ hot hgood
        (uniqFirst_scs_goodSub hgood) x (List.mem_of_mem_getLast? hx)
      rw [RowOK, hxk] at hxok
      obtain ⟨⟨sc, hscGood, hxsub⟩, hxot, -⟩ := hxok
      refine ⟨?_, ?_, ?_⟩
      · intro _
        show x.subCat ≠ pyStrip ot ++ " Total"
        rw [hxsub, pyStrip_orderType hot]
        intro heq
        have hsceq : sc = ot := @string_append_cancel _ _ " Total" heq
        have h3 := goodSub_not_orderType hscGood
        rcases mem_orderTypeOrder hot with h4 | h4 | h4
        · exact h3.1 (hsceq.trans h4)
        · exact h3.2.1 (hsceq.trans h4)
        · exact h3.2.2 (hsceq.trans h4)
      · intro _
        show x.orderType ≠ ot
        rw [hxot]
        exact fun h => orderType_ne_empty hot h.symm
      · intro hb
        exact absurd hb (by simp [typeTotalRow])
    · split
      · exact List.chain'_singleton _
      · exact List.chain'_nil
    · intro x hx y hy
      have hx2 : x = typeTotalRow ot (g.filter (fun a => a.key.orderType = ot)) := by
        rw [List.getLast?_append_of_ne_nil _ (by simp : ([typeTotalRow ot _]
          : List ReportRow) ≠ [])] at hx
        simpa using hx.symm
      subst hx2
      by_cases hta : ot = "Take-Away"
      · rw [if_pos hta] at hy
        have hy2 : y = blankRow := by simpa using hy.symm
        subst hy2
        refine ⟨?_, ?_, ?_⟩
        · intro h
          rcases h with h | h <;> cases h
        · intro h
          cases h
        · intro _
          exact ⟨rfl, hta⟩
      · rw [if_neg hta] at hy
        cases hy

/-! ## Shape of the full pre-collapse table -/

theorem grouped_key_goodSub (recs : List Rec) : ∀ a ∈ grouped recs, GoodSub a.key.subCat := by
  intro a ha
  obtain ⟨k, hk, rfl⟩ := List.mem_map.mp ha
  have h1 : k ∈ uniqFirst (recs.map recKey) :=
    (List.perm_insertionSort keyLE _).mem_iff.mp hk
  have h2 : k ∈ recs.map recKey := (mem_uniqFirst _ k).mp h1
  obtain ⟨r, -, rfl⟩ := List.mem_map.mp h2
  exact goodSub_subCategory r.onlineRef r.tableNo

theorem rawTable_eq (g : List AggRow) :
    rawTable g = typeBlock g "Dine-In" ++ (typeBlock g "Take-Away"
      ++ (typeBlock g "Delivery" ++ [])) := by
  rfl

theorem head_append_pred {P : ReportRow → Prop} {l1 l2 : List ReportRow}
    (h1 : ∀ r ∈ l1.head?, P r) (h2 : ∀ r ∈ l2.head?, P r) :
    ∀ r ∈ (l1 ++ l2).head?, P r := by
  cases l1 with
  | nil => simpa using h2
  | cons a rest =>
    intro r hr
    have : a = r := by simpa using hr
    subst this
    exact h1 a rfl

theorem chain_append_blocks {l1 l2 : List ReportRow}
    (h1 : List.Chain' AdjOK l1) (h2 : List.Chain' AdjOK l2)
    (hh : ∀ r ∈ l2.head?, r.kind = RKind.leaf) : List.Chain' AdjOK (l1 ++ l2) := by
  rw [List.chain'_append]
  exact ⟨h1, h2, fun x _ y hy => adjOK_of_leaf (hh y hy)⟩

theorem rawTable_head_leaf (g : List AggRow) :
    ∀ r ∈ (rawTable g).head?, r.kind = RKind.leaf := by
  rw [rawTable_eq]
  refine head_append_pred typeBlock_head_leaf (head_append_pred typeBlock_head_leaf ?_)
  refine head_append_pred typeBlock_head_leaf ?_
  intro r hr
  cases hr

theorem rawTable_chain {g : List AggRow} (hg : ∀ a ∈ g, GoodSub a.key.subCat) :
    List.Chain' AdjOK (rawTable g) := by
  rw [rawTable_eq]
  refine chain_append_blocks (typeBlock_chain hg (by decide))
    ?_ (head_append_pred typeBlock_head_leaf (head_append_pred typeBlock_head_leaf
      (fun r hr => by cases hr)))
  refine chain_append_blocks (typeBlock_chain hg (by decide))
    ?_ (head_append_pred typeBlock_head_leaf (fun r hr => by cases hr))
  refine chain_append_blocks (typeBlock_chain hg (by decide)) ?_ (fun r hr => by cases hr)
  exact List.chain'_nil

theorem rawTable_rowOK {g : List AggRow} (hg : ∀ a ∈ g, GoodSub a.key.subCat) :
    ∀ r ∈ rawTable g, RowOK r := by
  rw [rawTable_eq]
  intro r hr
  simp only [List.append_nil, List.mem_append] at hr
  rcases hr with hr | hr | hr
  · exact typeBlock_rowOK hg (by decide) r hr
  · exact typeBlock_rowOK hg (by decide) r hr
  · exact typeBlock_rowOK hg (by decide) r hr

/-! ## Transfer of the invariants through the collapsing pass -/

theorem collapseOTAux_forall2 :
    ∀ (l : List ReportRow) (p : String),
      (∀ b ∈ l.head?, b.kind = RKind.typeTotal → ¬ p = b.orderType) →
      List.Chain' (fun a b => b.kind = RKind.typeTotal → a.orderType ≠ b.orderType) l →
      List.Forall₂ COT l (collapseOTAux p l) := by
  intro l
  induction l with
  | nil => intro p _ _; exact List.Forall₂.nil
  | cons r rs ih =>
    intro p hp hc
    rw [collapseOTAux]
    rw [List.chain'_cons'] at hc
    refine List.Forall₂.cons ⟨?_, ?_⟩ ?_
    · split
      · exact Or.inr rfl
      · exact Or.inl rfl
    · intro hk
      exact if_neg (fun he => hp r rfl hk he.symm)
    · exact ih r.orderType (fun b hb hk => hc.1 b hb hk) hc.2

theorem collapseOT_forall2 {l : List ReportRow}
    (hc : List.Chain' (fun a b => b.kind = RKind.typeTotal → a.orderType ≠ b.orderType) l) :
    List.Forall₂ COT l (collapseOT l) := by
  cases l with
  | nil => exact List.Forall₂.nil
  | cons r rs =>
    rw [collapseOT]
    rw [List.chain'_cons'] at hc
    exact List.Forall₂.cons ⟨Or.inl rfl, fun _ => rfl⟩
      (collapseOTAux_forall2 rs r.orderType (fun b hb hk => hc.1 b hb hk) hc.2)

theorem collapseSCAux_forall2 :
    ∀ (l : List ReportRow) (p : String),
      (∀ b ∈ l.head?, (b.kind = RKind.subTotal ∨ b.kind = RKind.typeTotal) →
        ¬ p = b.subCat) →
      List.Chain' (fun a b => (b.kind = RKind.subTotal ∨ b.kind = RKind.typeTotal) →
        a.subCat ≠ b.subCat) l →
      List.Forall₂ CSC l (collapseSCAux p l) := by
  intro l
  induction l with
  | nil => intro p _ _; exact List.Forall₂.nil
  | cons r rs ih =>
    intro p hp hc
    rw [collapseSCAux]
    rw [List.chain'_cons'] at hc
    refine List.Forall₂.cons ⟨?_, ?_⟩ ?_
    · split
      · exact Or.inr rfl
      · exact Or.inl rfl
    · intro hk
      exact if_neg (fun he => hp r rfl hk he.symm)
    · exact ih r.subCat (fun b hb hk => hc.1 b hb hk) hc.2

theorem collapseSC_forall2 {l : List ReportRow}
    (hc : List.Chain' (fun a b => (b.kind = RKind.subTotal ∨ b.kind = RKind.typeTotal) →
      a.subCat ≠ b.subCat) l) :
    List.Forall₂ CSC l (collapseSC l) := by
  cases l with
  | nil => exact List.Forall₂.nil
  | cons r rs =>
    rw [collapseSC]
    rw [List.chain'_cons'] at hc
    exact List.Forall₂.cons ⟨Or.inl rfl, fun _ => rfl⟩
      (collapseSCAux_forall2 rs r.subCat (fun b hb hk => hc.1 b hb hk) hc.2)

theorem forall2_cot_view :
    ∀ {l l' : List ReportRow}, List.Forall₂ COT l l' →
      l'.map (fun r => (r.subCat, r.kind)) = l.map (fun r => (r.subCat, r.kind)) := by
  intro l l' h
  induction h with
  | nil => rfl
  | cons hR _ ih =>
    simp only [List.map_cons, ih]
    congr 1
    rcases hR.1 with rfl | rfl <;> rfl

theorem chain_transfer_sc {l l' : List ReportRow}
    (h2 : List.Forall₂ COT l l')
    (hc : List.Chain' (fun a b => (b.kind = RKind.subTotal ∨ b.kind = RKind.typeTotal) →
      a.subCat ≠ b.subCat) l) :
    List.Chain' (fun a b => (b.kind = RKind.subTotal ∨ b.kind = RKind.typeTotal) →
      a.subCat ≠ b.subCat) l' := by
  have hm := forall2_cot_view h2
  have hQ : List.Chain' (fun x y : String × RKind =>
      (y.2 = RKind.subTotal ∨ y.2 = RKind.typeTotal) → x.1 ≠ y.1)
      (l.map (fun r => (r.subCat, r.kind))) := (List.chain'_map _).mpr hc
  rw [← hm] at hQ
  exact (List.chain'_map _).mp hQ

theorem forall2_compose {l m m' : List ReportRow}
    (h1 : List.Forall₂ COT l m) (h2 : List.Forall₂ CSC m m') :
    List.Forall₂ CollapsedTo l m' := by
  induction h1 generalizing m' with
  | nil =>
    cases h2
    exact List.Forall₂.nil
  | @cons r s lr ls hR _ ih =>
    cases h2 with
    | @cons _ t _ mt hS hrest2 =>
      refine List.Forall₂.cons ?_ (ih hrest2)
      obtain ⟨hR1, hR2⟩ := hR
      obtain ⟨hS1, hS2⟩ := hS
      rcases hR1 with rfl | rfl <;> rcases hS1 with rfl | rfl
      · exact ⟨rfl, rfl, rfl, Or.inl rfl, Or.inl rfl, fun _ => rfl, fun _ => rfl⟩
      · exact ⟨rfl, rfl, rfl, Or.inl rfl, Or.inr rfl,
          fun hk => by rw [hS2 hk], fun _ => rfl⟩
      · exact ⟨rfl, rfl, rfl, Or.inr rfl, Or.inl rfl,
          fun _ => rfl, fun hk => by rw [hR2 hk]⟩
      · exact ⟨rfl, rfl, rfl, Or.inr rfl, Or.inr rfl,
          fun hk => by rw [hS2 hk], fun hk => by rw [hR2 hk]⟩

theorem collapse_forall2 {l : List ReportRow} (hc : List.Chain' AdjOK l) :
    List.Forall₂ CollapsedTo l (collapse l) := by
  have hcOT : List.Chain' (fun a b => b.kind = RKind.typeTotal →
      a.orderType ≠ b.orderType) l := hc.imp (fun _ _ h => h.2.1)
  have h1 := collapseOT_forall2 hcOT
  have hcSC : List.Chain' (fun a b => (b.kind = RKind.subTotal ∨ b.kind = RKind.typeTotal) →
      a.subCat ≠ b.subCat) (collapseOT l) :=
    chain_transfer_sc h1 (hc.imp (fun _ _ h => h.1))
  exact forall2_compose h1 (collapseSC_forall2 hcSC)

theorem forall2_mem_right {α β : Type} {R : α → β → Prop} :
    ∀ {l : List α} {l' : List β}, List.Forall₂ R l l' → ∀ b ∈ l', ∃ a ∈ l, R a b := by
  intro l l' h
  induction h with
  | nil => intro b hb; cases hb
  | cons hR _ ih =>
    intro b hb
    rcases List.mem_cons.mp hb with rfl | hb
    · exact ⟨_, List.mem_cons_self _ _, hR⟩
    · obtain ⟨a, ha, hab⟩ := ih b hb
      exact ⟨a, List.mem_cons_of_mem _ ha, hab⟩

/-! ## C1: the grand total selects exactly the order-type total rows -/

theorem typeBlock_not_grand (g : List AggRow) (ot : String) :
    ∀ r ∈ typeBlock g ot, ¬ r.kind = RKind.grand := by
  intro r hr
  by_cases hodf : g.filter (fun a => a.key.orderType = ot) = []
  · rw [typeBlock_empty hodf] at hr
    cases hr
  · rw [typeBlock_eq hodf] at hr
    simp only [List.mem_append] at hr
    rcases hr with (hr | hr) | hr
    · rcases subCatBlocks_kind _ ot false _ r hr with h | h <;> rw [h] <;>
        intro h' <;> cases h'
    · have heq : r = typeTotalRow ot (g.filter (fun a => a.key.orderType = ot)) := by
        simpa using hr
      rw [heq]
      intro h'
      cases h'
    · by_cases hta : ot = "Take-Away"
      · rw [if_pos hta] at hr
        have heq : r = blankRow := by simpa using hr
        rw [heq]
        intro h'
        cases h'
      · rw [if_neg hta] at hr
        cases hr

theorem rawTable_not_grand (g : List AggRow) :
    ∀ r ∈ rawTable g, ¬ r.kind = RKind.grand := by
  rw [rawTable_eq]
  intro r hr
  simp only [List.append_nil, List.mem_append] at hr
  rcases hr with hr | hr | hr <;> exact typeBlock_not_grand g _ r hr

theorem final_subCat_total_iff (recs : List Rec) :
    ∀ r ∈ buildFinalTable (grouped recs),
      (r.subCat ∈ totalsToInclude ↔ r.kind = RKind.typeTotal) := by
  intro r' hr'
  obtain ⟨r, hrmem, hct⟩ := forall2_mem_right
    (collapse_forall2 (rawTable_chain (grouped_key_goodSub recs))) r' hr'
  have hok : RowOK r := rawTable_rowOK (grouped_key_goodSub recs) r hrmem
  have hng : ¬ r.kind = RKind.grand := rawTable_not_grand _ r hrmem
  obtain ⟨hkind, hnums, hmc, hOT, hSC, hprot, hprotOT⟩ := hct
  cases hk : r.kind with
  | leaf =>
    rw [RowOK, hk] at hok
    refine iff_of_false ?_ (fun hh => by rw [hkind, hk] at hh; cases hh)
    rcases hSC with h | h
    · rw [h]
      exact goodSub_not_total hok.1
    · rw [h]
      decide
  | subTotal =>
    rw [RowOK, hk] at hok
    obtain ⟨⟨sc, hgood, hsub⟩, -, -⟩ := hok
    refine iff_of_false ?_ (fun hh => by rw [hkind, hk] at hh; cases hh)
    rw [hprot (Or.inl hk), hsub]
    exact goodSub_append_total_not_total hgood
  | typeTotal =>
    rw [RowOK, hk] at hok
    obtain ⟨hot, hsub, -⟩ := hok
    refine iff_of_true ?_ (by rw [hkind, hk])
    rw [hprot (Or.inr hk), hsub]
    rcases mem_orderTypeOrder hot with h | h | h <;> rw [h] <;> decide
  | blankSep =>
    rw [RowOK, hk] at hok
    refine iff_of_false ?_ (fun hh => by rw [hkind, hk] at hh; cases hh)
    rcases hSC with h | h
    · rw [h, hok]
      decide
    · rw [h]
      decide
  | grand => exact absurd hk hng

theorem forall2_kind_filter_length {l l' : List ReportRow}
    (h : List.Forall₂ CollapsedTo l l') (k : RKind) :
    (l'.filter (fun r => r.kind = k)).length = (l.filter (fun r => r.kind = k)).length := by
  induction h with
  | nil => rfl
  | cons hR _ ih =>
    simp only [List.filter_cons, hR.1]
    split <;> simp [ih]

theorem typeBlock_filter_typeTotal (g : List AggRow) (ot : String) :
    (typeBlock g ot).filter (fun r => r.kind = RKind.typeTotal)
      = if (g.filter (fun a => a.key.orderType = ot)).isEmpty then []
        else [typeTotalRow ot (g.filter (fun a => a.key.orderType = ot))] := by
  by_cases h : (g.filter (fun a => a.key.orderType = ot)) = []
  · have hyes : ((g.filter (fun a => a.key.orderType = ot)).isEmpty = true) := by
      simp [List.isEmpty_iff, h]
    rw [typeBlock_empty h, if_pos hyes]
    rfl
  · have hno : ¬ ((g.filter (fun a => a.key.orderType = ot)).isEmpty = true) := by
      simp [List.isEmpty_iff, h]
    rw [typeBlock_eq h, if_neg hno]
    rw [List.filter_append, List.filter_append,
      subCatBlocks_filter_other _ ot false _ RKind.typeTotal
        (by intro h'; cases h') (by intro h'; cases h')]
    have h1 : ([typeTotalRow ot (g.filter (fun a => a.key.orderType = ot))].filter
        (fun r => r.kind = RKind.typeTotal))
        = [typeTotalRow ot (g.filter (fun a => a.key.orderType = ot))] := rfl
    have h2 : ((if ot = "Take-Away" then [blankRow] else []).filter
        (fun r => r.kind = RKind.typeTotal)) = [] := by
      split <;> rfl
    rw [h1, h2]
    simp

/-- **C1**: the rows the grand-total computation selects from the collapsed
table by their Sub Category label are exactly the order-type total rows —
never a leaf or sub-category subtotal row — so the grand-total tuple is the
sum of exactly the `primary_type_total` rows, of which there is one per
order type present in the aggregated data. -/
theorem c1_grand_total (recs : List Rec) :
    (buildFinalTable (grouped recs)).filter (fun r => r.subCat ∈ totalsToInclude)
      = (buildFinalTable (grouped recs)).filter (fun r => r.kind = RKind.typeTotal) ∧
    (grandTotal (buildFinalTable (grouped recs))).nums
      = some (sumNums (((buildFinalTable (grouped recs)).filter
          (fun r => r.kind = RKind.typeTotal)).filterMap ReportRow.nums)) ∧
    ((buildFinalTable (grouped recs)).filter (fun r => r.kind = RKind.typeTotal)).length
      = (orderTypeOrder.filter
          (fun ot => !((grouped recs).filter (fun a => a.key.orderType = ot)).isEmpty)).length := by
  have hfc : (buildFinalTable (grouped recs)).filter (fun r => r.subCat ∈ totalsToInclude)
      = (buildFinalTable (grouped recs)).filter (fun r => r.kind = RKind.typeTotal) := by
    refine List.filter_congr ?_
    intro r hr
    exact decide_eq_decide.mpr (final_subCat_total_iff recs r hr)
  refine ⟨hfc, ?_, ?_⟩
  · show some _ = _
    rw [hfc]
  · have h1 := forall2_kind_filter_length
      (collapse_forall2 (rawTable_chain (grouped_key_goodSub recs))) RKind.typeTotal
    rw [show buildFinalTable (grouped recs) = collapse (rawTable (grouped recs)) from rfl, h1]
    rw [rawTable_eq]
    rw [List.append_nil, List.filter_append, List.filter_append, List.length_append,
      List.length_append]
    rw [typeBlock_filter_typeTotal, typeBlock_filter_typeTotal, typeBlock_filter_typeTotal]
    simp only [orderTypeOrder, List.filter]
    by_cases h1 : ((grouped recs).filter (fun a => a.key.orderType = "Dine-In")).isEmpty <;>
      by_cases h2 : ((grouped recs).filter (fun a => a.key.orderType = "Take-Away")).isEmpty <;>
      by_cases h3 : ((grouped recs).filter (fun a => a.key.orderType = "Delivery")).isEmpty <;>
      simp [h1, h2, h3]

/-! ## C4 amended: what the substring-matching style selection does -/

theorem noGrand_of_orderTypeOrder {s : String}
    (h : s ∈ orderTypeOrder ∨ s = "") : hasSub "Grand Total".data s.data = false := by
  rcases h with h | h
  · rcases mem_orderTypeOrder h with h' | h' | h' <;> rw [h'] <;> decide
  · rw [h]
    decide

theorem hasSub_total_append (sc : String) :
    hasSub "Total".data (sc ++ " Total").data = true := by
  rw [String.data_append]
  exact hasSub_append_left _ _ (by decide : hasSub "Total".data (" Total" : String).data = true)

/-- **C4 amended**: the export code picks the style of a row by substring
matching on its rendered labels — the grand-total format when "Grand Total"
occurs in the Order Type cell, else the totals format when "Total" occurs in
the Sub Category cell, else the normal format.  On pipeline output this
styles the grand row with the grand format, every sub-category subtotal and
every order-type total with one shared totals format (the claimed distinct
subtotal/group-total styles do not exist), the blank separator with the
normal format, and a leaf row with the normal format only when its
Sub Category label does not contain "Total" — a leaf label containing
"Total" is styled as a total, so the style is not a function of the row
kind. -/
theorem c4_style_by_kind (recs : List Rec) :
    ∀ r ∈ report recs,
      (r.kind = RKind.grand → cellFormat r = Style.grandStyle) ∧
      ((r.kind = RKind.subTotal ∨ r.kind = RKind.typeTotal) → cellFormat r = Style.total) ∧
      (r.kind = RKind.blankSep → cellFormat r = Style.normal) ∧
      (r.kind = RKind.leaf → hasSub "Total".data r.subCat.data = false →
        cellFormat r = Style.normal) := by
  intro r hr
  rw [report] at hr
  simp only [List.mem_append, List.mem_singleton] at hr
  rcases hr with hr | rfl
  · obtain ⟨r0, hr0mem, hct⟩ := forall2_mem_right
      (collapse_forall2 (rawTable_chain (grouped_key_goodSub recs))) r hr
    have hok : RowOK r0 := rawTable_rowOK (grouped_key_goodSub recs) r0 hr0mem
    have hng : ¬ r0.kind = RKind.grand := rawTable_not_grand _ r0 hr0mem
    obtain ⟨hkind, hnums, hmc, hOT, hSC, hprot, hprotOT⟩ := hct
    cases hk : r0.kind with
    | leaf =>
      rw [RowOK, hk] at hok
      refine ⟨?_, ?_, ?_, ?_⟩
      · intro h
        rw [hkind, hk] at h
        cases h
      · intro h
        rcases h with h | h <;> rw [hkind, hk] at h <;> cases h
      · intro h
        rw [hkind, hk] at h
        cases h
      · intro _ hns
        have hgt : hasSub "Grand Total".data r.orderType.data = false := by
          rcases hOT with h | h
          · rw [h]
            exact noGrand_of_orderTypeOrder hok.2.1
          · rw [h]
            decide
        simp [cellFormat, hgt, hns]
    | subTotal =>
      rw [RowOK, hk] at hok
      obtain ⟨⟨sc, hgood, hsub⟩, hot0, -⟩ := hok
      refine ⟨?_, ?_, ?_, ?_⟩
      · intro h
        rw [hkind, hk] at h
        cases h
      · intro _
        have hgt : hasSub "Grand Total".data r.orderType.data = false := by
          rcases hOT with h | h
          · rw [h, hot0]
            decide
          · rw [h]
            decide
        have hts : hasSub "Total".data r.subCat.data = true := by
          rw [hprot (Or.inl hk), hsub]
          exact hasSub_total_append sc
        simp [cellFormat, hgt, hts]
      · intro h
        rw [hkind, hk] at h
        cases h
      · intro h
        rw [hkind, hk] at h
        cases h
    | typeTotal =>
      rw [RowOK, hk] at hok
      obtain ⟨hot0, hsub, -⟩ := hok
      refine ⟨?_, ?_, ?_, ?_⟩
      · intro h
        rw [hkind, hk] at h
        cases h
      · intro _
        have hgt : hasSub "Grand Total".data r.orderType.data = false := by
          rw [hprotOT hk]
          exact noGrand_of_orderTypeOrder (Or.inl hot0)
        have hts : hasSub "Total".data r.subCat.data = true := by
          rw [hprot (Or.inr hk), hsub]
          exact hasSub_total_append r0.orderType
        simp [cellFormat, hgt, hts]
      · intro h
        rw [hkind, hk] at h
        cases h
      · intro h
        rw [hkind, hk] at h
        cases h
    | blankSep =>
      rw [RowOK, hk] at hok
      refine ⟨?_, ?_, ?_, ?_⟩
      · intro h
        rw [hkind, hk] at h
        cases h
      · intro h
        rcases h with h | h <;> rw [hkind, hk] at h <;> cases h
      · intro _
        have hgt : hasSub "Grand Total".data r.orderType.data = false := by
          rcases hOT with h | h
          · rw [h, hok]
            decide
          · rw [h]
            decide
        have hts : hasSub "Total".data r.subCat.data = false := by
          rcases hSC with h | h
          · rw [h, hok]
            decide
          · rw [h]
            decide
        simp [cellFormat, hgt, hts]
      · intro h
        rw [hkind, hk] at h
        cases h
    | grand => exact absurd hk hng
  · refine ⟨?_, ?_, ?_, ?_⟩
    · intro _
      have hc : hasSub "Grand Total".data ("Grand Total" : String).data = true := by decide
      rw [cellFormat]
      exact if_pos hc
    · intro h
      rcases h with h | h <;> cases h
    · intro h
      cases h
    · intro h
      cases h

/-- Closed instance of `c4_style_by_kind` at the grand row of a concrete
report. -/
theorem c4_style_by_kind_witness :
    grandTotal (buildFinalTable (grouped [w8a])) ∈ report [w8a] ∧
    (((grandTotal (buildFinalTable (grouped [w8a]))).kind = RKind.grand →
        cellFormat (grandTotal (buildFinalTable (grouped [w8a]))) = Style.grandStyle) ∧
      (((grandTotal (buildFinalTable (grouped [w8a]))).kind = RKind.subTotal ∨
          (grandTotal (buildFinalTable (grouped [w8a]))).kind = RKind.typeTotal) →
        cellFormat (grandTotal (buildFinalTable (grouped [w8a]))) = Style.total) ∧
      ((grandTotal (buildFinalTable (grouped [w8a]))).kind = RKind.blankSep →
        cellFormat (grandTotal (buildFinalTable (grouped [w8a]))) = Style.normal) ∧
      ((grandTotal (buildFinalTable (grouped [w8a]))).kind = RKind.leaf →
        hasSub "Total".data (grandTotal (buildFinalTable (grouped [w8a]))).subCat.data = false →
        cellFormat (grandTotal (buildFinalTable (grouped [w8a]))) = Style.normal)) :=
  ⟨List.mem_append_right _ (List.mem_singleton.mpr rfl),
   c4_style_by_kind [w8a] _ (List.mem_append_right _ (List.mem_singleton.mpr rfl))⟩

/-! ## C2: order-type totals against leaf rows and sub-category subtotals -/

theorem sum_ite_insert {α : Type} (key : α → String) (g : String → ℚ) (v : ℚ) (a : α) :
    ∀ scs : List String, scs.Nodup → key a ∈ scs →
      (scs.map (fun sc => if key a = sc then v + g sc else g sc)).sum
        = v + (scs.map g).sum := by
  intro scs
  induction scs with
  | nil => intro _ h; cases h
  | cons sc rest ih =>
    intro hnd hmem
    simp only [List.map_cons, List.sum_cons]
    by_cases hka : key a = sc
    · rw [if_pos hka]
      have hnot : key a ∉ rest := by rw [hka]; exact (List.nodup_cons.mp hnd).1
      have hcongr : rest.map (fun x => if key a = x then v + g x else g x) = rest.map g :=
        List.map_congr_left (fun x hx => if_neg (fun he => hnot (by rw [he]; exact hx)))
      rw [hcongr, add_assoc]
    · rw [if_neg hka]
      have hmem2 : key a ∈ rest := by
        rcases List.mem_cons.mp hmem with h | h
        · exact absurd h hka
        · exact h
      rw [ih (List.nodup_cons.mp hnd).2 hmem2]
      ring

theorem sum_partition {α : Type} (key : α → String) (f : α → ℚ) :
    ∀ (l : List α) (scs : List String), scs.Nodup → (∀ x ∈ l, key x ∈ scs) →
      (scs.map (fun sc => ((l.filter (fun x => key x = sc)).map f).sum)).sum
        = (l.map f).sum := by
  intro l
  induction l with
  | nil =>
    intro scs _ _
    simp
  | cons a rest ih =>
    intro scs hnd hcov
    have hstep : scs.map (fun sc => (((a :: rest).filter (fun x => key x = sc)).map f).sum)
        = scs.map (fun sc => if key a = sc then
            f a + ((rest.filter (fun x => key x = sc)).map f).sum
          else ((rest.filter (fun x => key x = sc)).map f).sum) := by
      refine List.map_congr_left (fun sc _ => ?_)
      rw [List.filter_cons]
      by_cases h : key a = sc
      · simp [h]
      · simp [h]
    rw [hstep, sum_ite_insert key _ (f a) a scs hnd (hcov a (List.mem_cons_self a rest)),
      List.map_cons, List.sum_cons, ih scs hnd (fun x hx => hcov x (List.mem_cons_of_mem a hx))]

theorem sumNums_comp_flatten (proj : Nums → ℚ) (odf : List AggRow) (scs : List String)
    (hnd : scs.Nodup) (hcov : ∀ a ∈ odf, a.key.subCat ∈ scs) :
    (((scs.map (fun sc =>
        (odf.filter (fun a => a.key.subCat = sc)).map AggRow.nums)).flatten).map proj).sum
      = ((odf.map AggRow.nums).map proj).sum := by
  rw [List.map_flatten, List.sum_flatten]
  have h1 : ((scs.map (fun sc =>
      (odf.filter (fun a => a.key.subCat = sc)).map AggRow.nums)).map
        (List.map proj)).map List.sum
      = scs.map (fun sc => ((odf.filter (fun a => a.key.subCat = sc)).map
          (fun a => proj a.nums)).sum) := by
    simp only [List.map_map]
    refine List.map_congr_left (fun sc _ => ?_)
    show ((((odf.filter (fun a => a.key.subCat = sc)).map AggRow.nums)).map proj).sum = _
    rw [List.map_map]
    rfl
  rw [h1, sum_partition (fun a => a.key.subCat) (fun a => proj a.nums) odf scs hnd hcov,
    List.map_map]
  rfl

theorem sumNums_comp_subtotal (proj : Nums → ℚ)
    (hproj : ∀ L : List Nums, proj (sumNums L) = (L.map proj).sum)
    (odf : List AggRow) (scs : List String)
    (hnd : scs.Nodup) (hcov : ∀ a ∈ odf, a.key.subCat ∈ scs) :
    ((scs.map (fun sc =>
        sumNums ((odf.filter (fun a => a.key.subCat = sc)).map AggRow.nums))).map proj).sum
      = ((odf.map AggRow.nums).map proj).sum := by
  have h1 : (scs.map (fun sc =>
      sumNums ((odf.filter (fun a => a.key.subCat = sc)).map AggRow.nums))).map proj
      = scs.map (fun sc => ((odf.filter (fun a => a.key.subCat = sc)).map
          (fun a => proj a.nums)).sum) := by
    rw [List.map_map]
    refine List.map_congr_left (fun sc _ => ?_)
    show proj (sumNums _) = _
    rw [hproj, List.map_map]
    rfl
  rw [h1, sum_partition (fun a => a.key.subCat) (fun a => proj a.nums) odf scs hnd hcov,
    List.map_map]
  rfl

theorem sumNums_flatten_partition (odf : List AggRow) (scs : List String) (hnd : scs.Nodup)
    (hcov : ∀ a ∈ odf, a.key.subCat ∈ scs) :
    sumNums ((scs.map (fun sc =>
        (odf.filter (fun a => a.key.subCat = sc)).map AggRow.nums)).flatten)
      = sumNums (odf.map AggRow.nums) := by
  unfold sumNums
  congr 1
  · exact sumNums_comp_flatten Nums.afterDiscount odf scs hnd hcov
  · exact sumNums_comp_flatten Nums.cgst odf scs hnd hcov
  · exact sumNums_comp_flatten Nums.sgst odf scs hnd hcov
  · exact sumNums_comp_flatten Nums.deliveryCharge odf scs hnd hcov
  · exact sumNums_comp_flatten Nums.totalPrice odf scs hnd hcov

theorem sumNums_subtotal_partition (odf : List AggRow) (scs : List String) (hnd : scs.Nodup)
    (hcov : ∀ a ∈ odf, a.key.subCat ∈ scs) :
    sumNums (scs.map (fun sc =>
        sumNums ((odf.filter (fun a => a.key.subCat = sc)).map AggRow.nums)))
      = sumNums (odf.map AggRow.nums) := by
  unfold sumNums
  congr 1
  · exact sumNums_comp_subtotal Nums.afterDiscount (fun L => rfl) odf scs hnd hcov
  · exact sumNums_comp_subtotal Nums.cgst (fun L => rfl) odf scs hnd hcov
  · exact sumNums_comp_subtotal Nums.sgst (fun L => rfl) odf scs hnd hcov
  · exact sumNums_comp_subtotal Nums.deliveryCharge (fun L => rfl) odf scs hnd hcov
  · exact sumNums_comp_subtotal Nums.totalPrice (fun L => rfl) odf scs hnd hcov

theorem leafRows_nums : ∀ (sdf : List AggRow) (ot : String) (w : Bool),
    (leafRows ot w sdf).filterMap ReportRow.nums = sdf.map AggRow.nums := by
  intro sdf
  induction sdf with
  | nil => intro ot w; rfl
  | cons a rest ih =>
    intro ot w
    simp only [leafRows, List.filterMap_cons]
    rw [ih ot true]
    rfl

theorem subCatBlocks_leaf_nums :
    ∀ (scs : List String) (ot : String) (w : Bool) (odf : List AggRow),
      ((subCatBlocks ot w odf scs).filter (fun r => r.kind = RKind.leaf)).filterMap
          ReportRow.nums
        = (scs.map (fun sc => (odf.filter (fun a => a.key.subCat = sc)).map AggRow.nums)).flatten := by
  intro scs
  induction scs with
  | nil => intro ot w odf; rfl
  | cons sc rest ih =>
    intro ot w odf
    rw [subCatBlocks, List.filter_append, List.filter_append, leafRows_filter_leaf,
      List.filterMap_append, List.filterMap_append, leafRows_nums]
    have h1 : (([subTotalRow sc (odf.filter (fun a => a.key.subCat = sc))].filter
        (fun r => r.kind = RKind.leaf)).filterMap ReportRow.nums) = [] := rfl
    rw [h1, ih]
    simp

theorem subCatBlocks_subTotal_nums :
    ∀ (scs : List String) (ot : String) (w : Bool) (odf : List AggRow),
      ((subCatBlocks ot w odf scs).filter (fun r => r.kind = RKind.subTotal)).filterMap
          ReportRow.nums
        = scs.map (fun sc =>
            sumNums ((odf.filter (fun a => a.key.subCat = sc)).map AggRow.nums)) := by
  intro scs ot w odf
  rw [subCatBlocks_filter_subTotal]
  rw [List.filterMap_map]
  exact List.filterMap_eq_map _ ▸ rfl

theorem uniqFirst_cov (odf : List AggRow) :
    ∀ a ∈ odf, a.key.subCat ∈ uniqFirst (odf.map (fun x => x.key.subCat)) := by
  intro a ha
  rw [mem_uniqFirst]
  exact List.mem_map.mpr ⟨a, ha, rfl⟩

/-- **C2**: for every order type present in the aggregated data, the numeric
tuple of its order-type total row equals the sum over all leaf rows of its
section, which in turn equals the sum of the section's sub-category subtotal
rows (exactly, hence within any tolerance). -/
theorem c2_primary_type_total (recs : List Rec) (ot : String) (h1 : ot ∈ orderTypeOrder)
    (h2 : ¬ (grouped recs).filter (fun a => a.key.orderType = ot) = []) :
    ((typeBlock (grouped recs) ot).filter (fun r => r.kind = RKind.typeTotal)).filterMap
        ReportRow.nums
      = [sumNums (((typeBlock (grouped recs) ot).filter
          (fun r => r.kind = RKind.leaf)).filterMap ReportRow.nums)] ∧
    sumNums (((typeBlock (grouped recs) ot).filter
        (fun r => r.kind = RKind.leaf)).filterMap ReportRow.nums)
      = sumNums (((typeBlock (grouped recs) ot).filter
          (fun r => r.kind = RKind.subTotal)).filterMap ReportRow.nums) := by
  have hnd := uniqFirst_nodup ((grouped recs).filter
    (fun a => a.key.orderType = ot) |>.map (fun x => x.key.subCat))
  have hcov := uniqFirst_cov ((grouped recs).filter (fun a => a.key.orderType = ot))
  have hleaf : ((typeBlock (grouped recs) ot).filter
      (fun r => r.kind = RKind.leaf)).filterMap ReportRow.nums
      = ((uniqFirst (((grouped recs).filter (fun a => a.key.orderType = ot)).map
          (fun x => x.key.subCat))).map (fun sc =>
            (((grouped recs).filter (fun a => a.key.orderType = ot)).filter
              (fun a => a.key.subCat = sc)).map AggRow.nums)).flatten := by
    rw [typeBlock_eq h2, List.filter_append, List.filter_append,
      List.filterMap_append, List.filterMap_append]
    have hA : (([typeTotalRow ot ((grouped recs).filter
        (fun a => a.key.orderType = ot))].filter
        (fun r => r.kind = RKind.leaf)).filterMap ReportRow.nums) = [] := rfl
    have hB : (((if ot = "Take-Away" then [blankRow] else []).filter
        (fun r => r.kind = RKind.leaf)).filterMap ReportRow.nums) = [] := by
      split <;> rfl
    rw [hA, hB, subCatBlocks_leaf_nums]
    simp
  have hsub : ((typeBlock (grouped recs) ot).filter
      (fun r => r.kind = RKind.subTotal)).filterMap ReportRow.nums
      = (uniqFirst (((grouped recs).filter (fun a => a.key.orderType = ot)).map
          (fun x => x.key.subCat))).map (fun sc =>
            sumNums ((((grouped recs).filter (fun a => a.key.orderType = ot)).filter
              (fun a => a.key.subCat = sc)).map AggRow.nums)) := by
    rw [typeBlock_eq h2, List.filter_append, List.filter_append,
      List.filterMap_append, List.filterMap_append]
    have hA : (([typeTotalRow ot ((grouped recs).filter
        (fun a => a.key.orderType = ot))].filter
        (fun r => r.kind = RKind.subTotal)).filterMap ReportRow.nums) = [] := rfl
    have hB : (((if ot = "Take-Away" then [blankRow] else []).filter
        (fun r => r.kind = RKind.subTotal)).filterMap ReportRow.nums) = [] := by
      split <;> rfl
    rw [hA, hB, subCatBlocks_subTotal_nums]
    simp
  have htt : ((typeBlock (grouped recs) ot).filter
      (fun r => r.kind = RKind.typeTotal)).filterMap ReportRow.nums
      = [sumNums (((grouped recs).filter (fun a => a.key.orderType = ot)).map AggRow.nums)] := by
    rw [typeBlock_filter_typeTotal]
    rw [if_neg (by simpa [List.isEmpty_iff] using h2)]
    rfl
  constructor
  · rw [htt, hleaf, sumNums_flatten_partition _ _ hnd hcov]
  · rw [hleaf, hsub, sumNums_flatten_partition _ _ hnd hcov,
      sumNums_subtotal_partition _ _ hnd hcov]

/-- Closed instance of `c2_primary_type_total` at a concrete one-record
input. -/
theorem c2_primary_type_total_witness :
    ("Dine-In" ∈ orderTypeOrder) ∧
    (¬ (grouped [w8a]).filter (fun a => a.key.orderType = "Dine-In") = []) ∧
    (((typeBlock (grouped [w8a]) "Dine-In").filter
        (fun r => r.kind = RKind.typeTotal)).filterMap ReportRow.nums
      = [sumNums (((typeBlock (grouped [w8a]) "Dine-In").filter
          (fun r => r.kind = RKind.leaf)).filterMap ReportRow.nums)] ∧
    sumNums (((typeBlock (grouped [w8a]) "Dine-In").filter
        (fun r => r.kind = RKind.leaf)).filterMap ReportRow.nums)
      = sumNums (((typeBlock (grouped [w8a]) "Dine-In").filter
          (fun r => r.kind = RKind.subTotal)).filterMap ReportRow.nums)) :=
  ⟨by decide, by decide, c2_primary_type_total [w8a] "Dine-In" (by decide) (by decide)⟩

/-! ## C7: ordering of the report and skipping of unknown order types -/

theorem filter_swap {α : Type} (p q : α → Bool) (l : List α) :
    (l.filter q).filter p = (l.filter p).filter q := by
  induction l with
  | nil => rfl
  | cons a rest ih =>
    simp only [List.filter_cons]
    by_cases hp : p a = true <;> by_cases hq : q a = true <;>
      simp [hp, hq, List.filter_cons, ih]

theorem filter_map_comm {α β : Type} (f : α → β) (q : β → Bool) (l : List α) :
    (l.map f).filter q = (l.filter (fun a => q (f a))).map f := by
  induction l with
  | nil => rfl
  | cons a rest ih =>
    simp only [List.map_cons, List.filter_cons]
    by_cases h : q (f a) = true <;> simp [h, ih]

theorem uniqFirstAux_congr {α : Type} [DecidableEq α] :
    ∀ (l s₁ s₂ : List α), (∀ x, x ∈ s₁ ↔ x ∈ s₂) →
      uniqFirstAux s₁ l = uniqFirstAux s₂ l := by
  intro l
  induction l with
  | nil => intro s₁ s₂ _; rfl
  | cons a rest ih =>
    intro s₁ s₂ h
    simp only [uniqFirstAux]
    by_cases ha : a ∈ s₁
    · rw [if_pos ha, if_pos ((h a).mp ha)]
      exact ih s₁ s₂ h
    · rw [if_neg ha, if_neg (fun hx => ha ((h a).mpr hx))]
      refine congrArg (a :: ·) (ih _ _ ?_)
      intro x
      simp only [List.mem_cons]
      exact or_congr Iff.rfl (h x)

theorem uniqFirstAux_shadow {α : Type} [DecidableEq α] :
    ∀ (l seen : List α) (a : α), uniqFirstAux (a :: seen) l
      = uniqFirstAux seen (l.filter (fun x => !decide (x = a))) := by
  intro l
  induction l with
  | nil => intro seen a; rfl
  | cons b rest ih =>
    intro seen a
    simp only [uniqFirstAux, List.filter_cons]
    by_cases hba : b = a
    · subst hba
      rw [if_pos (List.mem_cons_self b seen)]
      rw [if_neg (by simp)]
      exact ih seen b
    · have h2 : (!decide (b = a)) = true := by simp [hba]
      rw [if_pos h2]
      by_cases hbs : b ∈ seen
      · rw [if_pos (List.mem_cons_of_mem a hbs)]
        simp only [uniqFirstAux, if_pos hbs]
        exact ih seen a
      · have hb1 : b ∉ a :: seen := by
          intro hmem
          rcases List.mem_cons.mp hmem with hmem | hmem
          · exact hba hmem
          · exact hbs hmem
        rw [if_neg hb1]
        simp only [uniqFirstAux, if_neg hbs]
        refine congrArg (b :: ·) ?_
        have hswap : uniqFirstAux (b :: a :: seen) rest
            = uniqFirstAux (a :: b :: seen) rest := by
          refine uniqFirstAux_congr rest _ _ (fun x => ?_)
          simp only [List.mem_cons]
          tauto
        rw [hswap]
        exact ih (b :: seen) a

theorem uniqFirst_cons {α : Type} [DecidableEq α] (a : α) (l : List α) :
    uniqFirst (a :: l) = a :: uniqFirst (l.filter (fun x => !decide (x = a))) := by
  show uniqFirstAux [] (a :: l) = _
  simp only [uniqFirstAux]
  rw [if_neg (List.not_mem_nil a)]
  exact congrArg (a :: ·) (uniqFirstAux_shadow l [] a)

theorem uniqFirst_filter_aux {α : Type} [DecidableEq α] (p : α → Bool) :
    ∀ (n : ℕ) (l : List α), l.length ≤ n →
      uniqFirst (l.filter p) = (uniqFirst l).filter p := by
  intro n
  induction n with
  | zero =>
    intro l h
    rw [List.eq_nil_of_length_eq_zero (Nat.le_zero.mp h)]
    rfl
  | succ n ih =>
    intro l h
    cases l with
    | nil => rfl
    | cons a rest =>
      have hlen : (rest.filter (fun x => !decide (x = a))).length ≤ n :=
        le_trans (List.length_filter_le _ _) (Nat.le_of_succ_le_succ h)
      rw [uniqFirst_cons]
      simp only [List.filter_cons]
      by_cases hp : p a = true
      · rw [if_pos hp, if_pos hp, uniqFirst_cons]
        refine congrArg (a :: ·) ?_
        rw [filter_swap]
        exact ih _ hlen
      · rw [if_neg hp, if_neg hp]
        have h1 : (rest.filter p).filter (fun x => !decide (x = a)) = rest.filter p := by
          refine List.filter_eq_self.mpr (fun x hx => ?_)
          have hpx : p x = true := (List.mem_filter.mp hx).2
          simp only [Bool.not_eq_eq_eq_not, Bool.not_true, decide_eq_false_iff_not]
          intro hxa
          rw [hxa] at hpx
          exact hp hpx
        rw [← ih _ hlen, filter_swap, h1]

theorem uniqFirst_filter {α : Type} [DecidableEq α] (p : α → Bool) (l : List α) :
    uniqFirst (l.filter p) = (uniqFirst l).filter p :=
  uniqFirst_filter_aux p l.length l (le_refl _)

theorem sortKeys_filter (p : Key → Bool) (ks : List Key) :
    sortKeys (ks.filter p) = (sortKeys ks).filter p := by
  haveI : IsAntisymm Key keyLE := ⟨fun _ _ h1 h2 => keyLE_antisymm h1 h2⟩
  refine List.eq_of_perm_of_sorted ?_ (sortKeys_sorted _) ?_
  · exact (List.perm_insertionSort keyLE (ks.filter p)).trans
      ((List.perm_insertionSort keyLE ks).filter p).symm
  · exact List.Pairwise.sublist (List.filter_sublist _) (sortKeys_sorted ks)

theorem groupKeys_filter_known (recs : List Rec) :
    groupKeys (recs.filter (fun r => r.orderType ∈ orderTypeOrder))
      = (groupKeys recs).filter (fun k => k.orderType ∈ orderTypeOrder) := by
  rw [groupKeys, groupKeys]
  have h1 : (recs.filter (fun r => r.orderType ∈ orderTypeOrder)).map recKey
      = (recs.map recKey).filter (fun k => k.orderType ∈ orderTypeOrder) := by
    exact (filter_map_comm recKey (fun k => decide (k.orderType ∈ orderTypeOrder)) recs).symm
  rw [h1, uniqFirst_filter, sortKeys_filter]

theorem aggNums_filter_known (recs : List Rec) (k : Key)
    (hk : k.orderType ∈ orderTypeOrder) :
    aggNums (recs.filter (fun r => r.orderType ∈ orderTypeOrder)) k = aggNums recs k := by
  have h1 : (recs.filter (fun r => recKey r = k)).filter
        (fun r => r.orderType ∈ orderTypeOrder)
      = recs.filter (fun r => recKey r = k) := by
    refine List.filter_eq_self.mpr (fun r hr => ?_)
    have hrk : recKey r = k := of_decide_eq_true ((List.mem_filter.mp hr).2)
    have hot : r.orderType = k.orderType := congrArg Key.orderType hrk
    simp only [decide_eq_true_eq]
    rw [hot]
    exact hk
  rw [aggNums, aggNums, filter_swap, h1]

theorem grouped_filter_section (recs : List Rec) {ot : String} (hot : ot ∈ orderTypeOrder) :
    (grouped (recs.filter (fun r => r.orderType ∈ orderTypeOrder))).filter
        (fun a => a.key.orderType = ot)
      = (grouped recs).filter (fun a => a.key.orderType = ot) := by
  rw [grouped, grouped, groupKeys_filter_known]
  have h2 : ∀ (rs : List Rec) (ks : List Key),
      ((ks.map (fun k => (⟨k, aggNums rs k⟩ : AggRow))).filter
          (fun a => a.key.orderType = ot))
        = ((ks.filter (fun k => k.orderType = ot)).map
            (fun k => (⟨k, aggNums rs k⟩ : AggRow))) := by
    intro rs ks
    exact filter_map_comm (fun k => (⟨k, aggNums rs k⟩ : AggRow))
      (fun a => decide (a.key.orderType = ot)) ks
  rw [h2, h2]
  have h3 : ((groupKeys recs).filter (fun k => k.orderType ∈ orderTypeOrder)).filter
        (fun k => k.orderType = ot)
      = (groupKeys recs).filter (fun k => k.orderType = ot) := by
    rw [filter_swap]
    refine List.filter_eq_self.mpr (fun k hk => ?_)
    have hko : k.orderType = ot := of_decide_eq_true ((List.mem_filter.mp hk).2)
    simp only [decide_eq_true_eq]
    rw [hko]
    exact hot
  rw [h3]
  refine List.map_congr_left (fun k hk => ?_)
  have hko : k.orderType = ot := of_decide_eq_true ((List.mem_filter.mp hk).2)
  have ha := aggNums_filter_known recs k (by rw [hko]; exact hot)
  rw [ha]

theorem typeBlock_congr {g g' : List AggRow} (ot : String)
    (h : g.filter (fun a => a.key.orderType = ot)
      = g'.filter (fun a => a.key.orderType = ot)) :
    typeBlock g ot = typeBlock g' ot := by
  by_cases he : g.filter (fun a => a.key.orderType = ot) = []
  · have he' : g'.filter (fun a => a.key.orderType = ot) = [] := by rw [← h]; exact he
    rw [typeBlock_empty he, typeBlock_empty he']
  · have he' : ¬ g'.filter (fun a => a.key.orderType = ot) = [] := by rw [← h]; exact he
    rw [typeBlock_eq he, typeBlock_eq he', h]

theorem report_filter_known (recs : List Rec) :
    report (recs.filter (fun r => r.orderType ∈ orderTypeOrder)) = report recs := by
  have hraw : rawTable (grouped (recs.filter (fun r => r.orderType ∈ orderTypeOrder)))
      = rawTable (grouped recs) := by
    rw [rawTable_eq, rawTable_eq]
    rw [typeBlock_congr "Dine-In" (grouped_filter_section recs (by decide)),
      typeBlock_congr "Take-Away" (grouped_filter_section recs (by decide)),
      typeBlock_congr "Delivery" (grouped_filter_section recs (by decide))]
  have hfin : buildFinalTable (grouped (recs.filter (fun r => r.orderType ∈ orderTypeOrder)))
      = buildFinalTable (grouped recs) := congrArg collapse hraw
  show buildFinalTable (grouped (recs.filter (fun r => r.orderType ∈ orderTypeOrder)))
      ++ [grandTotal (buildFinalTable
          (grouped (recs.filter (fun r => r.orderType ∈ orderTypeOrder))))]
    = buildFinalTable (grouped recs) ++ [grandTotal (buildFinalTable (grouped recs))]
  rw [hfin]

theorem forall2_typeTotal_ot {l l' : List ReportRow} (h : List.Forall₂ CollapsedTo l l') :
    (l'.filter (fun r => r.kind = RKind.typeTotal)).map (fun r => r.orderType)
      = (l.filter (fun r => r.kind = RKind.typeTotal)).map (fun r => r.orderType) := by
  induction h with
  | nil => rfl
  | @cons a b la lb hR hrest ih =>
    obtain ⟨hkind, -, -, -, -, -, hprotOT⟩ := hR
    simp only [List.filter_cons, hkind]
    by_cases hk : a.kind = RKind.typeTotal
    · rw [if_pos (by simp [hk]), if_pos (by simp [hk])]
      simp only [List.map_cons, ih, hprotOT hk]
    · rw [if_neg (by simp [hk]), if_neg (by simp [hk])]
      exact ih

theorem keyLE_pair {a b : Key} (hot : a.orderType = b.orderType) (h : keyLE a b) :
    pairLE (a.subCat, a.mainCat) (b.subCat, b.mainCat) := by
  rw [keyLE_iff_tuple, keyTuple, keyTuple, hot] at h
  simp only [Prod.Lex.le_iff] at h
  rcases h with h | ⟨-, h⟩
  · exact absurd h (lt_irrefl _)
  · rcases h with h | ⟨-, h⟩
    · exact absurd h (lt_irrefl _)
    · exact h

theorem grouped_sorted (recs : List Rec) :
    List.Pairwise (fun a b : AggRow => keyLE a.key b.key) (grouped recs) := by
  rw [grouped, List.pairwise_map]
  exact sortKeys_sorted (uniqFirst (recs.map recKey))

theorem odf_pairwise_pair (recs : List Rec) (ot : String) :
    List.Pairwise (fun a b : AggRow =>
        pairLE (a.key.subCat, a.key.mainCat) (b.key.subCat, b.key.mainCat))
      ((grouped recs).filter (fun a => a.key.orderType = ot)) := by
  have hs : List.Pairwise (fun a b : AggRow => keyLE a.key b.key)
      ((grouped recs).filter (fun a => a.key.orderType = ot)) :=
    List.Pairwise.sublist (List.filter_sublist _) (grouped_sorted recs)
  have hmem : ∀ a ∈ (grouped recs).filter (fun a => a.key.orderType = ot),
      a.key.orderType = ot := fun a ha => of_decide_eq_true ((List.mem_filter.mp ha).2)
  refine List.Pairwise.imp_of_mem ?_ hs
  intro a b ha hb hk
  exact keyLE_pair ((hmem a ha).trans (hmem b hb).symm) hk

theorem odf_pairwise_subCat (recs : List Rec) (ot : String) :
    List.Pairwise (fun a b : AggRow => a.key.subCat ≤ b.key.subCat)
      ((grouped recs).filter (fun a => a.key.orderType = ot)) := by
  refine (odf_pairwise_pair recs ot).imp ?_
  intro a b h
  rcases h with h | ⟨h, -⟩
  · exact le_of_lt h
  · exact le_of_eq h

theorem filter_split_sorted (s : String) :
    ∀ l : List AggRow,
      List.Pairwise (fun a b : AggRow => a.key.subCat ≤ b.key.subCat) l →
      (∀ x ∈ l, s ≤ x.key.subCat) →
      l.filter (fun a => a.key.subCat = s)
        ++ l.filter (fun a => !decide (a.key.subCat = s)) = l := by
  intro l
  induction l with
  | nil => intro _ _; rfl
  | cons b rest ih =>
    intro hp hb
    by_cases hbs : b.key.subCat = s
    · have h3 : (decide (b.key.subCat = s)) = true := decide_eq_true hbs
      simp only [List.filter_cons, h3, if_true, Bool.not_true, Bool.false_eq_true, if_false]
      show b :: (rest.filter _ ++ rest.filter _) = b :: rest
      refine congrArg (b :: ·) (ih hp.tail ?_)
      intro x hx
      exact hb x (List.mem_cons_of_mem b hx)
    · have hsb : s < b.key.subCat :=
        lt_of_le_of_ne (hb b (List.mem_cons_self b rest)) (fun hh => hbs hh.symm)
      have hrest : ∀ x ∈ rest, ¬ x.key.subCat = s := by
        intro x hx hh
        have hbx : b.key.subCat ≤ x.key.subCat := List.rel_of_pairwise_cons hp hx
        rw [hh] at hbx
        exact absurd (lt_of_lt_of_le hsb hbx) (lt_irrefl s)
      have h1 : rest.filter (fun a => a.key.subCat = s) = [] := by
        refine List.filter_eq_nil_iff.mpr (fun x hx => ?_)
        simp only [decide_eq_true_eq]
        exact hrest x hx
      have h2 : rest.filter (fun a => !decide (a.key.subCat = s)) = rest := by
        refine List.filter_eq_self.mpr (fun x hx => ?_)
        simp only [Bool.not_eq_eq_eq_not, Bool.not_true, decide_eq_false_iff_not]
        exact hrest x hx
      have h3 : (decide (b.key.subCat = s)) = false := by simp [hbs]
      simp only [List.filter_cons, h3, Bool.not_false, if_true, Bool.false_eq_true, if_false,
        h1, h2]
      rfl

theorem gather_sorted_aux :
    ∀ (n : ℕ) (l : List AggRow), l.length ≤ n →
      List.Pairwise (fun a b : AggRow => a.key.subCat ≤ b.key.subCat) l →
      ((uniqFirst (l.map (fun a => a.key.subCat))).map
        (fun sc => l.filter (fun a => a.key.subCat = sc))).flatten = l := by
  intro n
  induction n with
  | zero =>
    intro l h _
    rw [List.eq_nil_of_length_eq_zero (Nat.le_zero.mp h)]
    rfl
  | succ n ih =>
    intro l h hp
    cases l with
    | nil => rfl
    | cons a rest =>
      rw [List.map_cons, uniqFirst_cons]
      have hcomm : (rest.map (fun a => a.key.subCat)).filter
            (fun x => !decide (x = a.key.subCat))
          = (rest.filter (fun x => !decide (x.key.subCat = a.key.subCat))).map
              (fun a => a.key.subCat) := by
        exact filter_map_comm (fun a => a.key.subCat)
          (fun x => !decide (x = a.key.subCat)) rest
      rw [hcomm]
      simp only [List.map_cons, List.flatten_cons]
      have hhead : (a :: rest).filter (fun x => x.key.subCat = a.key.subCat)
          = a :: rest.filter (fun x => x.key.subCat = a.key.subCat) := by
        simp [List.filter_cons]
      rw [hhead]
      have htail : (uniqFirst ((rest.filter
              (fun x => !decide (x.key.subCat = a.key.subCat))).map
              (fun a => a.key.subCat))).map
            (fun sc => (a :: rest).filter (fun x => x.key.subCat = sc))
          = (uniqFirst ((rest.filter
              (fun x => !decide (x.key.subCat = a.key.subCat))).map
              (fun a => a.key.subCat))).map
            (fun sc => (rest.filter
              (fun x => !decide (x.key.subCat = a.key.subCat))).filter
              (fun x => x.key.subCat = sc)) := by
        refine List.map_congr_left (fun sc hsc => ?_)
        have hsc1 : sc ∈ (rest.filter
            (fun x => !decide (x.key.subCat = a.key.subCat))).map
            (fun a => a.key.subCat) := (mem_uniqFirst _ sc).mp hsc
        obtain ⟨x, hx, rfl⟩ := List.mem_map.mp hsc1
        have hxne : ¬ x.key.subCat = a.key.subCat := by
          have hx2 := (List.mem_filter.mp hx).2
          simpa using hx2
        have hafail : (decide (a.key.subCat = x.key.subCat)) = false := by
          simp only [decide_eq_false_iff_not]
          exact fun hh => hxne hh.symm
        simp only [List.filter_cons, hafail, Bool.false_eq_true, if_false]
        have hsw : (rest.filter (fun z => !decide (z.key.subCat = a.key.subCat))).filter
              (fun z => z.key.subCat = x.key.subCat)
            = (rest.filter (fun z => z.key.subCat = x.key.subCat)).filter
              (fun z => !decide (z.key.subCat = a.key.subCat)) := filter_swap _ _ rest
        rw [hsw]
        refine (List.filter_eq_self.mpr (fun y hy => ?_)).symm
        have hyx : y.key.subCat = x.key.subCat := by
          have hy2 := (List.mem_filter.mp hy).2
          simpa using hy2
        simp only [Bool.not_eq_eq_eq_not, Bool.not_true, decide_eq_false_iff_not]
        rw [hyx]
        exact hxne
      rw [htail, ih (rest.filter (fun x => !decide (x.key.subCat = a.key.subCat)))
        (le_trans (List.length_filter_le _ _) (Nat.le_of_succ_le_succ h))
        (List.Pairwise.sublist (List.filter_sublist _) hp.tail)]
      show (a :: rest.filter (fun x => x.key.subCat = a.key.subCat))
          ++ rest.filter (fun x => !decide (x.key.subCat = a.key.subCat)) = a :: rest
      rw [List.cons_append]
      refine congrArg (a :: ·) ?_
      refine filter_split_sorted a.key.subCat rest hp.tail ?_
      intro x hx
      exact List.rel_of_pairwise_cons hp hx

theorem gather_sorted (l : List AggRow)
    (hp : List.Pairwise (fun a b : AggRow => a.key.subCat ≤ b.key.subCat) l) :
    ((uniqFirst (l.map (fun a => a.key.subCat))).map
      (fun sc => l.filter (fun a => a.key.subCat = sc))).flatten = l :=
  gather_sorted_aux l.length l (le_refl _) hp

theorem typeBlock_leaf_triples (recs : List Rec) {ot : String}
    (h : (grouped recs).filter (fun a => a.key.orderType = ot) ≠ []) :
    ((typeBlock (grouped recs) ot).filter (fun r => r.kind = RKind.leaf)).map rowTriple
      = ((grouped recs).filter (fun a => a.key.orderType = ot)).map aggTriple := by
  rw [typeBlock_eq h, List.filter_append, List.filter_append, List.map_append,
    List.map_append]
  have hA : (([typeTotalRow ot ((grouped recs).filter
      (fun a => a.key.orderType = ot))].filter
      (fun r => r.kind = RKind.leaf)).map rowTriple) = [] := rfl
  have hB : (((if ot = "Take-Away" then [blankRow] else []).filter
      (fun r => r.kind = RKind.leaf)).map rowTriple) = [] := by
    split <;> rfl
  rw [hA, hB, subCatBlocks_filter_leaf, List.append_nil, List.append_nil]
  have hmm : ((uniqFirst (((grouped recs).filter (fun a => a.key.orderType = ot)).map
        (fun a => a.key.subCat))).map
        (fun sc => (((grouped recs).filter (fun a => a.key.orderType = ot)).filter
          (fun a => a.key.subCat = sc)).map aggTriple)).flatten
      = (((uniqFirst (((grouped recs).filter (fun a => a.key.orderType = ot)).map
          (fun a => a.key.subCat))).map
          (fun sc => ((grouped recs).filter (fun a => a.key.orderType = ot)).filter
            (fun a => a.key.subCat = sc))).flatten).map aggTriple := by
    rw [List.map_flatten, List.map_map]
    rfl
  rw [hmm, gather_sorted _ (odf_pairwise_subCat recs ot)]

theorem typeBlock_leaf_pairwise (recs : List Rec) {ot : String} :
    List.Pairwise pairLE
      (((typeBlock (grouped recs) ot).filter (fun r => r.kind = RKind.leaf)).map
        labelPair) := by
  by_cases h : (grouped recs).filter (fun a => a.key.orderType = ot) = []
  · rw [typeBlock_empty h]
    exact List.Pairwise.nil
  · have h1 : (((typeBlock (grouped recs) ot).filter (fun r => r.kind = RKind.leaf)).map
        labelPair)
        = ((((typeBlock (grouped recs) ot).filter (fun r => r.kind = RKind.leaf)).map
            rowTriple).map (fun t => (t.1, t.2.1))) := by
      rw [List.map_map]
      rfl
    rw [h1, typeBlock_leaf_triples recs h, List.map_map]
    have h2 : ((grouped recs).filter (fun a => a.key.orderType = ot)).map
          ((fun t : String × String × Option Nums => (t.1, t.2.1)) ∘ aggTriple)
        = ((grouped recs).filter (fun a => a.key.orderType = ot)).map
          (fun a => (a.key.subCat, a.key.mainCat)) := rfl
    rw [h2, List.pairwise_map]
    refine (odf_pairwise_pair recs ot).imp ?_
    intro a b hab
    exact hab

/-- **C7**: the order-type sections of the assembled report appear in the
fixed priority order Dine-In, Take-Away, Delivery (one order-type total per
order type present, in exactly that sequence); within each order-type
section the leaf rows are sorted by (Sub Category, Main Category) under the
string ordering; and records whose Order Type is outside the fixed list
contribute nothing: filtering them away leaves the report unchanged. -/
theorem c7_order_and_skip (recs : List Rec) :
    ((buildFinalTable (grouped recs)).filter (fun r => r.kind = RKind.typeTotal)).map
        (fun r => r.orderType)
      = orderTypeOrder.filter
          (fun ot => !((grouped recs).filter (fun a => a.key.orderType = ot)).isEmpty) ∧
    (∀ ot ∈ orderTypeOrder,
      List.Pairwise pairLE
        (((typeBlock (grouped recs) ot).filter (fun r => r.kind = RKind.leaf)).map
          labelPair)) ∧
    report (recs.filter (fun r => r.orderType ∈ orderTypeOrder)) = report recs := by
  refine ⟨?_, fun ot _ => typeBlock_leaf_pairwise recs, report_filter_known recs⟩
  rw [show buildFinalTable (grouped recs) = collapse (rawTable (grouped recs)) from rfl]
  rw [forall2_typeTotal_ot (collapse_forall2 (rawTable_chain (grouped_key_goodSub recs)))]
  rw [rawTable_eq]
  rw [List.append_nil, List.filter_append, List.filter_append, List.map_append,
    List.map_append]
  rw [typeBlock_filter_typeTotal, typeBlock_filter_typeTotal, typeBlock_filter_typeTotal]
  simp only [orderTypeOrder, List.filter]
  by_cases h1 : ((grouped recs).filter (fun a => a.key.orderType = "Dine-In")).isEmpty <;>
    by_cases h2 : ((grouped recs).filter (fun a => a.key.orderType = "Take-Away")).isEmpty <;>
    by_cases h3 : ((grouped recs).filter (fun a => a.key.orderType = "Delivery")).isEmpty <;>
    simp [h1, h2, h3, typeTotalRow]

/-- Closed instance of the sortedness conjunct of `c7_order_and_skip` at a
one-record input. -/
theorem c7_order_and_skip_witness :
    ("Dine-In" ∈ orderTypeOrder) ∧
    List.Pairwise pairLE
      (((typeBlock (grouped [w8a]) "Dine-In").filter (fun r => r.kind = RKind.leaf)).map
        labelPair) :=
  ⟨by decide, (c7_order_and_skip [w8a]).2.1 "Dine-In" (by decide)⟩

/-! ## C10: the blank separator row after the Take-Away section -/

theorem typeBlock_filter_blank (g : List AggRow) (ot : String) :
    (typeBlock g ot).filter (fun r => r.kind = RKind.blankSep)
      = if (g.filter (fun a => a.key.orderType = ot)).isEmpty then []
        else if ot = "Take-Away" then [blankRow] else [] := by
  by_cases h : (g.filter (fun a => a.key.orderType = ot)) = []
  · have hyes : ((g.filter (fun a => a.key.orderType = ot)).isEmpty = true) := by
      simp [List.isEmpty_iff, h]
    rw [typeBlock_empty h, if_pos hyes]
    rfl
  · have hno : ¬ ((g.filter (fun a => a.key.orderType = ot)).isEmpty = true) := by
      simp [List.isEmpty_iff, h]
    rw [typeBlock_eq h, if_neg hno]
    rw [List.filter_append, List.filter_append,
      subCatBlocks_filter_other _ ot false _ RKind.blankSep
        (by intro h'; cases h') (by intro h'; cases h')]
    have h1 : ([typeTotalRow ot (g.filter (fun a => a.key.orderType = ot))].filter
        (fun r => r.kind = RKind.blankSep)) = [] := rfl
    have h2 : ((if ot = "Take-Away" then [blankRow] else []).filter
        (fun r => r.kind = RKind.blankSep))
        = if ot = "Take-Away" then [blankRow] else [] := by
      split <;> rfl
    rw [h1, h2]
    simp

theorem rawTable_filter_blank (recs : List Rec) :
    ((rawTable (grouped recs)).filter (fun r => r.kind = RKind.blankSep)).length
      = if ((grouped recs).filter (fun a => a.key.orderType = "Take-Away")).isEmpty
        then 0 else 1 := by
  rw [rawTable_eq, List.append_nil, List.filter_append, List.filter_append,
    List.length_append, List.length_append]
  rw [typeBlock_filter_blank, typeBlock_filter_blank, typeBlock_filter_blank]
  by_cases h1 : ((grouped recs).filter (fun a => a.key.orderType = "Dine-In")).isEmpty <;>
    by_cases h2 : ((grouped recs).filter (fun a => a.key.orderType = "Take-Away")).isEmpty <;>
    by_cases h3 : ((grouped recs).filter (fun a => a.key.orderType = "Delivery")).isEmpty <;>
    simp [h1, h2, h3]

theorem collapsed_isBlank_iff {r r' : ReportRow} (hok : RowOK r)
    (hng : ¬ r.kind = RKind.grand) (hct : CollapsedTo r r') :
    (decide (isBlank r')) = (decide (r.kind = RKind.blankSep)) := by
  rw [decide_eq_decide]
  obtain ⟨hkind, hnums, hmc, hOT, hSC, hprot, hprotOT⟩ := hct
  constructor
  · intro hb
    obtain ⟨hb1, hb2, hb3, hb4⟩ := hb
    by_contra hk
    have hsome : r.nums.isSome = true := by
      cases hkk : r.kind with
      | leaf => rw [RowOK, hkk] at hok; exact hok.2.2
      | subTotal => rw [RowOK, hkk] at hok; exact hok.2.2
      | typeTotal => rw [RowOK, hkk] at hok; exact hok.2.2
      | blankSep => exact absurd hkk hk
      | grand => exact absurd hkk hng
    rw [hnums] at hb4
    rw [hb4] at hsome
    simp at hsome
  · intro hk
    rw [RowOK, hk] at hok
    show r'.orderType = "" ∧ r'.subCat = "" ∧ r'.mainCat = "" ∧ r'.nums = none
    refine ⟨?_, ?_, ?_, ?_⟩
    · rcases hOT with hh | hh
      · rw [hh, hok]; rfl
      · exact hh
    · rcases hSC with hh | hh
      · rw [hh, hok]; rfl
      · exact hh
    · rw [hmc, hok]; rfl
    · rw [hnums, hok]; rfl

theorem forall2_count_pred {p q : ReportRow → Bool} :
    ∀ {l l' : List ReportRow}, List.Forall₂ CollapsedTo l l' →
      (∀ a b, a ∈ l → CollapsedTo a b → p a = q b) →
      (l'.filter q).length = (l.filter p).length := by
  intro l l' h
  induction h with
  | nil => intro _; rfl
  | @cons a b la lb hR hrest ih =>
    intro hpq
    have he : p a = q b := hpq a b (List.mem_cons_self a la) hR
    have ihh := ih (fun x y hx hxy => hpq x y (List.mem_cons_of_mem a hx) hxy)
    simp only [List.filter_cons, ← he]
    by_cases hpa : p a = true
    · rw [if_pos hpa, if_pos hpa]
      simp only [List.length_cons, ihh]
    · rw [if_neg hpa, if_neg hpa]
      exact ihh

theorem forall2_head {l l' : List ReportRow} (h : List.Forall₂ CollapsedTo l l')
    {b : ReportRow} (hb : l'.head? = some b) :
    ∃ a, l.head? = some a ∧ CollapsedTo a b := by
  cases h with
  | nil => cases hb
  | @cons a b' la lb' hR hrest =>
    have hbb : b' = b := by simpa using hb
    exact ⟨a, rfl, hbb ▸ hR⟩

theorem chain_transfer_generic {S T : ReportRow → ReportRow → Prop} :
    ∀ {l l' : List ReportRow}, List.Forall₂ CollapsedTo l l' → List.Chain' S l →
      (∀ a b a' b', a ∈ l → b ∈ l → CollapsedTo a a' → CollapsedTo b b' →
        S a b → T a' b') →
      List.Chain' T l' := by
  intro l l' hf
  induction hf with
  | nil => intro _ _; exact List.chain'_nil
  | @cons a a' la la' hR hrest ih =>
    intro hc himp
    have htail : List.Chain' T la' :=
      ih hc.tail (fun x y x' y' hx hy hxx hyy hs =>
        himp x y x' y' (List.mem_cons_of_mem a hx) (List.mem_cons_of_mem a hy) hxx hyy hs)
    rw [List.chain'_cons']
    refine ⟨?_, htail⟩
    intro b' hb'
    cases hrest with
    | nil => cases hb'
    | @cons b b2 lb lb2 hR2 hrest2 =>
      have hbb : b2 = b' := by simpa using hb'
      subst hbb
      exact himp a b a' b2 (List.mem_cons_self a _)
        (List.mem_cons_of_mem a (List.mem_cons_self b lb)) hR hR2
        (List.chain'_cons.mp hc).1

/-- **C10**: the report contains exactly one all-blank separator row when the
aggregated data has at least one Take-Away row and none otherwise; the first
report row is never blank; and a blank row only ever stands immediately
after the Take-Away order-type total row. -/
theorem c10_blank_separator (recs : List Rec) :
    ((report recs).filter (fun r => decide (isBlank r))).length
      = (if ((grouped recs).filter (fun a => a.key.orderType = "Take-Away")).isEmpty
         then 0 else 1) ∧
    (∀ r ∈ (report recs).head?, ¬ isBlank r) ∧
    List.Chain' (fun a b => isBlank b → a.kind = RKind.typeTotal ∧ a.orderType = "Take-Away")
      (report recs) := by
  have hf2 := collapse_forall2 (rawTable_chain (grouped_key_goodSub recs))
  have hok := rawTable_rowOK (grouped_key_goodSub recs)
  have hng := rawTable_not_grand (grouped recs)
  refine ⟨?_, ?_, ?_⟩
  · show ((collapse (rawTable (grouped recs))
        ++ [grandTotal (collapse (rawTable (grouped recs)))]).filter
          (fun r => decide (isBlank r))).length = _
    rw [List.filter_append]
    have hgr : ([grandTotal (collapse (rawTable (grouped recs)))].filter
        (fun r => decide (isBlank r))) = [] := by
      simp only [List.filter_cons, List.filter_nil]
      rw [if_neg (by
        intro hb
        have hb1 := (of_decide_eq_true hb).1
        exact absurd hb1 (show ¬ ("Grand Total" : String) = "" by decide))]
    rw [hgr, List.append_nil]
    have hcount := forall2_count_pred hf2 (fun a b ha hab =>
      (collapsed_isBlank_iff (hok a ha) (hng a ha) hab).symm)
    rw [hcount, rawTable_filter_blank]
  · intro r hr
    have hr' : r ∈ (collapse (rawTable (grouped recs))
        ++ [grandTotal (collapse (rawTable (grouped recs)))]).head? := hr
    cases hcl : collapse (rawTable (grouped recs)) with
    | nil =>
      rw [hcl] at hr'
      have hre : grandTotal [] = r := by simpa using hr'
      subst hre
      intro hb
      exact absurd hb.1 (show ¬ ("Grand Total" : String) = "" by decide)
    | cons r0 rest =>
      rw [hcl] at hr'
      have hre : r0 = r := by simpa using hr'
      subst hre
      rw [hcl] at hf2
      obtain ⟨a, ha, hct⟩ := forall2_head hf2 rfl
      have hmem : a ∈ rawTable (grouped recs) := List.mem_of_mem_head? ha
      have hleaf : a.kind = RKind.leaf := rawTable_head_leaf (grouped recs) a ha
      have hokA := hok a hmem
      rw [RowOK, hleaf] at hokA
      intro hb
      have hb4 := hb.2.2.2
      rw [hct.2.1] at hb4
      rw [hb4] at hokA
      simp at hokA
  · show List.Chain' _ (collapse (rawTable (grouped recs))
        ++ [grandTotal (collapse (rawTable (grouped recs)))])
    rw [List.chain'_append]
    refine ⟨?_, List.chain'_singleton _, ?_⟩
    · refine chain_transfer_generic hf2 (rawTable_chain (grouped_key_goodSub recs)) ?_
      intro a b a2 b2 ha hb haa hbb hs hbBlank
      have hbk : b.kind = RKind.blankSep := by
        have hdec := collapsed_isBlank_iff (hok b hb) (hng b hb) hbb
        have hdb : decide (isBlank b2) = true := decide_eq_true hbBlank
        rw [hdec] at hdb
        exact of_decide_eq_true hdb
      have hS := hs.2.2 hbk
      refine ⟨?_, ?_⟩
      · rw [haa.1, hS.1]
      · rw [haa.2.2.2.2.2.2 hS.1, hS.2]
    · intro x hx y hy
      have hy' : grandTotal (collapse (rawTable (grouped recs))) = y := by simpa using hy
      intro hb
      rw [← hy'] at hb
      exact absurd hb.1 (show ¬ ("Grand Total" : String) = "" by decide)

/-- Closed instance of the head conjunct of `c10_blank_separator` on the
empty input: the single grand-total row is not blank. -/
theorem c10_blank_separator_witness :
    ¬ isBlank (grandTotal (buildFinalTable (grouped ([] : List Rec)))) :=
  (c10_blank_separator []).2.1 _ rfl
